import Mathlib

/-!
Verification of `@xstd/async-ref-count` (`src/async-ref-count.ts`).

The class `AsyncRefCount` is a single-threaded, promise-based reference
counter.  We embed it as an executable labelled transition system: the
`Config` record holds all private fields of one instance
(`#count`, `#openController`/`#openPromise`, `#closeController`/`#closePromise`)
plus the set of in-flight `open()` calls and `handle.close()` calls, each
represented as a task whose program counter marks the `await` it is suspended
at.  Labels either resume one suspended task (running the synchronous code of
the method between two `await`s, exactly as a JavaScript microtask does) or
model the environment settling one of the external promises (the opener's
promise, the `close` implementation's own promise, the hook-driven
`#closePromise` chain), or a caller's `AbortSignal` firing.

Promises are modelled as write-once result stores indexed by an id: the
episode id for `#openPromise` (a fresh id is allocated each time the opener is
invoked), a close id for each invocation of `#close`.  The `#closePromise`
field settles at `closeFinalSettle` (the `finally` of the hook chain, lines
124-130 of the source), while the promise returned by `#close` itself, which
the triggering caller awaits, settles at `closeRawSettle`; the two are
independent because a hook may settle before or after the close call's own
promise.

The synchronous guard of `acquireHook` (lines 101-112) and the hook rejection
handler (lines 117-121) have no interaction with the rest of the instance
state, so they are embedded separately as the pure functions
`acquireCloseHook`, `hookCatch` and `noHookAbsorb`.
-/

namespace AsyncRefCount

/-- JavaScript values appearing in the model: opened values and rejection
reasons are numbered opaquely; `Error` objects carry their message. -/
inductive JSVal where
  | num (n : Nat)
  | errObj (msg : String)
deriving DecidableEq

/-- Settled outcome of the shared `#openPromise` of one episode: fulfilled
with a `ClosableValue` (we record its `value`; its `close` function is
identified by the episode id), or rejected with a reason. -/
inductive ORes where
  | ok (v : Nat)
  | err (r : JSVal)
deriving DecidableEq

/-- Settled outcome of the promise returned by `#close` (the close
implementation's own return, `Promise.try(close, ...)`), which the caller that
triggered the 0-transition awaits. -/
inductive CRes where
  | ok
  | err (r : JSVal)
deriving DecidableEq

/-- Final outcome of one `open()` call: a handle id, or a rejection reason. -/
inductive ODone where
  | ok (hid : Nat)
  | err (r : JSVal)
deriving DecidableEq

/-- One issued handle (`DerivedClosableValue`): the episode it came from, the
shared `value`, and the private idempotency flag `closed` of its `close`. -/
structure HandleSt where
  episode : Nat
  value : Nat
  closed : Bool
deriving DecidableEq

/-- Program counter of one in-flight `open()` call.

* `waitClose cid` — suspended at `await abortify(this.#closePromise, ...)`
  (line 141), waiting for close invocation `cid` to settle its field promise.
* `waitOpen e` — incremented the counter and suspended at
  `await abortify(this.#openPromise, ...)` (line 169) on episode `e`.
* `safeguardOpen e orig` — the wait failed with reason `orig`, the counter hit
  zero, and the call is suspended at `await this.#openPromise` (line 198) on
  episode `e`.
* `safeguardClose cid orig` — suspended at `await this.#close(...)`
  (line 198) on close invocation `cid`.
* `done out` — the call settled with outcome `out`. -/
inductive OTaskPc where
  | waitClose (cid : Nat)
  | waitOpen (e : Nat)
  | safeguardOpen (e : Nat) (orig : JSVal)
  | safeguardClose (cid : Nat) (orig : JSVal)
  | done (out : ODone)
deriving DecidableEq

/-- Program counter of one `handle.close()` call: suspended at
`await this.#close(close, reason)` (line 186) or settled. -/
inductive CTaskPc where
  | waitClose (cid : Nat)
  | done (out : CRes)
deriving DecidableEq

/-- One `handle.close()` call: the handle it was invoked on and its pc. -/
structure CTask where
  hid : Nat
  pc : CTaskPc
deriving DecidableEq

/-- Association-list lookup by numeric key (first match wins). -/
def getk {α : Type} (k : Nat) : List (Nat × α) → Option α
  | [] => none
  | (k', v) :: rest => if k = k' then some v else getk k rest

/-- Association-list update of the first entry with the given key. -/
def setk {α : Type} (k : Nat) (v : α) : List (Nat × α) → List (Nat × α)
  | [] => []
  | (k', v') :: rest => if k = k' then (k, v) :: rest else (k', v') :: setk k v rest

/-- Count entries whose value satisfies `p`. -/
def cnt {α : Type} (p : α → Bool) : List (Nat × α) → Nat
  | [] => 0
  | (_, v) :: rest => (if p v then 1 else 0) + cnt p rest

/-- Full state of one `AsyncRefCount` instance together with its in-flight
calls and the settlement state of the external promises. -/
structure Config where
  /-- private field `#count`. -/
  count : Int
  /-- next episode id; an episode id is allocated exactly when the opener is
  invoked (lines 146-166). -/
  nextEp : Nat
  /-- `#openPromise`: the episode whose promise is cached, if any. -/
  openSlot : Option Nat
  /-- `#openController`: the episode whose controller is installed, and
  whether its signal is aborted. -/
  openCtrl : Option (Nat × Bool)
  /-- settled outcomes of opener promises, by episode (write-once). -/
  openRes : List (Nat × ORes)
  /-- next close-invocation id. -/
  nextCid : Nat
  /-- `#closeController`/`#closePromise`: the in-flight close invocation, if
  any, and whether its controller's signal is aborted. -/
  closeSlot : Option (Nat × Bool)
  /-- settled outcomes of the promise returned by `#close`, by close id. -/
  closeRawRes : List (Nat × CRes)
  /-- close ids whose field promise (`#closePromise`, the hook chain's
  `finally`) has settled and run its cleanup. -/
  closeFinalDone : List Nat
  /-- ghost log: each invocation of the underlying `close` operation, recorded
  as the episode whose `ClosableValue.close` was invoked, in order. -/
  closeLog : List Nat
  /-- ghost counter: number of times the opener was invoked. -/
  openerRuns : Nat
  /-- next fresh id for `open()` call tasks. -/
  nextTid : Nat
  /-- in-flight and settled `open()` calls. -/
  tasks : List (Nat × OTaskPc)
  /-- next fresh handle id. -/
  nextHid : Nat
  /-- issued handles. -/
  handles : List (Nat × HandleSt)
  /-- next fresh id for `handle.close()` call tasks. -/
  nextCtid : Nat
  /-- in-flight and settled `handle.close()` calls. -/
  ctasks : List (Nat × CTask)
deriving DecidableEq

/-- A freshly constructed instance: `#count = 0`, no cached promises. -/
def init : Config :=
  { count := 0, nextEp := 0, openSlot := none, openCtrl := none, openRes := [],
    nextCid := 0, closeSlot := none, closeRawRes := [], closeFinalDone := [],
    closeLog := [], openerRuns := 0, nextTid := 0, tasks := [],
    nextHid := 0, handles := [], nextCtid := 0, ctasks := [] }

/-- Lines 146-166: if `#openPromise` is `undefined`, create a controller,
invoke the opener and cache the promise; otherwise reuse the cached episode.
Returns the updated state and the episode the caller will await. -/
def ensureOpen (c : Config) : Config × Nat :=
  match c.openSlot with
  | some e => (c, e)
  | none =>
    let c' : Config :=
      { c with nextEp := c.nextEp + 1, openerRuns := c.openerRuns + 1,
               openSlot := some c.nextEp, openCtrl := some (c.nextEp, false) }
    (c', c.nextEp)

/-- Lines 95-101 and 124-132 head: `#close` creates a fresh controller, runs
the close implementation (`Promise.try(close, reason, hook)`, logged in
`closeLog` against the episode whose value is being closed) and installs the
field promise.  Returns the updated state and the close id. -/
def invokeClose (c : Config) (e : Nat) : Config × Nat :=
  let c' : Config :=
    { c with nextCid := c.nextCid + 1, closeSlot := some (c.nextCid, false),
             closeLog := c.closeLog ++ [e] }
  (c', c.nextCid)

/-- Lines 190-203: the catch block of `open()`.  Decrement the counter; if it
reached zero, abort `#openController` and suspend at `await this.#openPromise`
(capturing the current field) for the safeguard; otherwise the original
failure is rethrown at once. -/
def failTask (c : Config) (tid : Nat) (r : JSVal) : Config :=
  let c1 := { c with count := c.count - 1 }
  if c1.count = 0 then
    let c2 := { c1 with openCtrl := c1.openCtrl.map (fun (p : Nat × Bool) => (p.1, true)) }
    match c2.openSlot with
    | some e => { c2 with tasks := setk tid (.safeguardOpen e r) c2.tasks }
    | none => { c2 with tasks := setk tid (.done (.err r)) c2.tasks }
  else
    { c1 with tasks := setk tid (.done (.err r)) c1.tasks }

/-- One atomic step of the system: either the synchronous part of a method
call, the resumption of one suspended task, the settlement of an external
promise, or a caller's `AbortSignal` firing. -/
inductive Label where
  /-- a caller invokes `open({signal})`; `some r` means its signal is already
  aborted at entry with reason `r` (line 136 `throwIfAborted`). -/
  | openCall (abortedAtEntry : Option JSVal)
  /-- the caller's signal aborts with reason `r` while the call waits out an
  in-flight close (line 141). -/
  | openCancelWaitClose (tid : Nat) (r : JSVal)
  /-- the in-flight close fully settled; the waiting `open()` call resumes at
  line 144 (`this.#count++`). -/
  | openResumeAfterClose (tid : Nat)
  /-- the opener's promise for episode `e` fulfills with value `v`; the
  success handler of lines 150-156 runs. -/
  | openerFulfill (e : Nat) (v : Nat)
  /-- the opener's promise for episode `e` rejects with reason `r`; the
  rejection handler of lines 157-164 runs. -/
  | openerReject (e : Nat) (r : JSVal)
  /-- a call waiting at line 169 observes the fulfilled shared promise and
  returns a fresh handle (lines 173-189). -/
  | openSuccess (tid : Nat)
  /-- a call waiting at line 169 observes the rejected shared promise and
  enters the catch block. -/
  | openFail (tid : Nat)
  /-- the caller's own signal aborts with reason `r` while waiting at line
  169; `abortify` rejects and the catch block runs. -/
  | openCancel (tid : Nat) (r : JSVal)
  /-- the safeguard's `await this.#openPromise` (line 198) observes the
  settled episode: a value is closed immediately, a rejection falls through. -/
  | safeguardRun (tid : Nat)
  /-- the safeguard's `await this.#close(...)` settles; the finally block
  rethrows the original reason (line 201). -/
  | safeguardCloseDone (tid : Nat)
  /-- a caller invokes `close(r)` on handle `hid` (lines 177-188). -/
  | handleClose (hid : Nat) (r : JSVal)
  /-- the `await this.#close(...)` of a triggering `handle.close()` settles
  with the close implementation's own outcome. -/
  | handleCloseDone (ctid : Nat)
  /-- the promise returned by the close implementation settles. -/
  | closeRawSettle (cid : Nat) (out : CRes)
  /-- the `#closePromise` field (hook chain) settles: the `finally` of lines
  124-130 runs, clearing `#openPromise` unless the close was aborted. -/
  | closeFinalSettle (cid : Nat)
deriving DecidableEq

/-- The transition function.  `none` means the label is not enabled in this
configuration (the task is not suspended there, or the promise it refers to
has not settled / already settled). -/
def step (c : Config) : Label → Option Config
  | .openCall ab =>
    let tid := c.nextTid
    match ab with
    | some r =>
      some ({ c with nextTid := tid + 1, tasks := (tid, .done (.err r)) :: c.tasks })
    | none =>
      match c.closeSlot with
      | some (cid, _) =>
        some ({ c with nextTid := tid + 1, closeSlot := some (cid, true),
                       tasks := (tid, .waitClose cid) :: c.tasks })
      | none =>
        let c1 := { c with count := c.count + 1, nextTid := tid + 1 }
        let p := ensureOpen c1
        some ({ p.1 with tasks := (tid, .waitOpen p.2) :: p.1.tasks })
  | .openCancelWaitClose tid r =>
    match getk tid c.tasks with
    | some (.waitClose _) => some ({ c with tasks := setk tid (.done (.err r)) c.tasks })
    | _ => none
  | .openResumeAfterClose tid =>
    match getk tid c.tasks with
    | some (.waitClose cid) =>
      if cid ∈ c.closeFinalDone then
        let c1 := { c with count := c.count + 1 }
        let p := ensureOpen c1
        some ({ p.1 with tasks := setk tid (.waitOpen p.2) p.1.tasks })
      else none
    | _ => none
  | .openerFulfill e v =>
    if e < c.nextEp ∧ getk e c.openRes = none then
      let c1 := { c with openRes := (e, ORes.ok v) :: c.openRes }
      some (match c1.openCtrl with
        | some (e2, _) => if e2 = e then { c1 with openCtrl := none } else c1
        | none => c1)
    else none
  | .openerReject e r =>
    if e < c.nextEp ∧ getk e c.openRes = none then
      let c1 := { c with openRes := (e, ORes.err r) :: c.openRes }
      some (match c1.openCtrl with
        | some (e2, _) =>
          if e2 = e then { c1 with openCtrl := none, openSlot := none } else c1
        | none => c1)
    else none
  | .openSuccess tid =>
    match getk tid c.tasks with
    | some (.waitOpen e) =>
      match getk e c.openRes with
      | some (.ok v) =>
        some ({ c with nextHid := c.nextHid + 1,
                       handles := (c.nextHid, ⟨e, v, false⟩) :: c.handles,
                       tasks := setk tid (.done (.ok c.nextHid)) c.tasks })
      | _ => none
    | _ => none
  | .openFail tid =>
    match getk tid c.tasks with
    | some (.waitOpen e) =>
      match getk e c.openRes with
      | some (.err r) => some (failTask c tid r)
      | _ => none
    | _ => none
  | .openCancel tid r =>
    match getk tid c.tasks with
    | some (.waitOpen e) =>
      if getk e c.openRes = none then some (failTask c tid r) else none
    | _ => none
  | .safeguardRun tid =>
    match getk tid c.tasks with
    | some (.safeguardOpen e r) =>
      match getk e c.openRes with
      | some (.ok _) =>
        let p := invokeClose c e
        some ({ p.1 with tasks := setk tid (.safeguardClose p.2 r) p.1.tasks })
      | some (.err _) =>
        some ({ c with tasks := setk tid (.done (.err r)) c.tasks })
      | none => none
    | _ => none
  | .safeguardCloseDone tid =>
    match getk tid c.tasks with
    | some (.safeguardClose cid r) =>
      if (getk cid c.closeRawRes).isSome then
        some ({ c with tasks := setk tid (.done (.err r)) c.tasks })
      else none
    | _ => none
  | .handleClose hid _r =>
    match getk hid c.handles with
    | some h =>
      if h.closed then
        some ({ c with nextCtid := c.nextCtid + 1,
                       ctasks := (c.nextCtid, ⟨hid, .done (.err (.errObj "Already closed."))⟩) :: c.ctasks })
      else
        let c1 := { c with count := c.count - 1,
                           handles := setk hid { h with closed := true } c.handles,
                           nextCtid := c.nextCtid + 1 }
        if c1.count = 0 then
          let p := invokeClose c1 h.episode
          some ({ p.1 with ctasks := (c.nextCtid, ⟨hid, .waitClose p.2⟩) :: p.1.ctasks })
        else
          some ({ c1 with ctasks := (c.nextCtid, ⟨hid, .done .ok⟩) :: c1.ctasks })
    | none => none
  | .handleCloseDone ctid =>
    match getk ctid c.ctasks with
    | some ct =>
      match ct.pc with
      | .waitClose cid =>
        match getk cid c.closeRawRes with
        | some out => some ({ c with ctasks := setk ctid ⟨ct.hid, .done out⟩ c.ctasks })
        | none => none
      | _ => none
    | none => none
  | .closeRawSettle cid out =>
    if cid < c.nextCid ∧ getk cid c.closeRawRes = none then
      some ({ c with closeRawRes := (cid, out) :: c.closeRawRes })
    else none
  | .closeFinalSettle cid =>
    match c.closeSlot with
    | some (cid2, ab) =>
      if cid2 = cid ∧ cid ∉ c.closeFinalDone then
        some ({ c with closeFinalDone := cid :: c.closeFinalDone,
                       closeSlot := none,
                       openSlot := if ab then c.openSlot else none })
      else none
    | none => none

/-- Run a list of labels from a configuration; `none` if any is not enabled. -/
def steps (c : Config) : List Label → Option Config
  | [] => some c
  | l :: tr => (step c l).bind (fun c' => steps c' tr)

/-! Local embedding of the synchronous internals of `#close` (lines 95-122).
These closures touch only the local variable `hookPromise` and the close
controller's signal, never the instance fields, so they are embedded as pure
functions. -/

/-- The `CloseHook` handed to the close implementation: `resolve`/`reject`
settle the hook promise (modelled by the `closeFinalSettle` label and
`hookCatch`), and `signal` is the close controller's signal. -/
structure CloseHookM where
  signalAborted : Bool
deriving DecidableEq

/-- Result of one call to the `acquireHook` capability: the hook together
with the new state of the local `hookPromise` variable, or a synchronous
throw. -/
inductive AcqResult where
  | acquired (hook : CloseHookM) (hookSt : Option Unit)
  | threw (e : JSVal)
deriving DecidableEq

/-- Lines 101-112: the hook callback of `#close`.  If `hookPromise` is
already set it throws `Error('Close hook locked.')` synchronously to the
close implementation; otherwise it creates the resolvers, records the
promise, and returns `{resolve, reject, signal}`. -/
def acquireCloseHook (signalAborted : Bool) : Option Unit → AcqResult
  | some _ => .threw (.errObj "Close hook locked.")
  | none => .acquired ⟨signalAborted⟩ (some ())

/-- Lines 117-121: the rejection handler attached to an acquired hook's
promise.  Returns what is handed to `reportError` (the side channel), if
anything, and the handler's own outcome (it always returns `void`, so the
chained `#closePromise` always fulfills — nothing is ever rethrown to a
caller on this path). -/
def hookCatch (signalAborted : Bool) (signalReason err : JSVal) :
    Option JSVal × CRes :=
  if !signalAborted || err ≠ signalReason then (some err, .ok) else (none, .ok)

/-- Lines 114-115: when the close implementation never acquired the hook,
`hookPromise` is `closePromise.catch((): void => {})` — any rejection of the
close call's own promise is discarded: nothing is reported and nothing is
rethrown on the field-promise path. -/
def noHookAbsorb (_out : CRes) : Option JSVal × CRes :=
  (none, .ok)

/-! Concrete executions used as witnesses and counterexamples. -/

/-- Scenario A of the spec: two concurrent `open()` calls, the opener
fulfills with value `5`, both handles are closed, the single close invocation
succeeds and fully settles. -/
def trShare : List Label :=
  [.openCall none, .openCall none, .openerFulfill 0 5,
   .openSuccess 0, .openSuccess 1,
   .handleClose 0 (.num 9), .handleClose 1 (.num 9),
   .closeRawSettle 0 .ok, .handleCloseDone 1, .closeFinalSettle 0]

/-- The state reached by `trShare`. -/
def cShare : Config := (steps init trShare).getD init

/-- Supersession: one episode is opened and its only handle closed; while the
close is in flight a second `open()` arrives (aborting the close), waits the
close out, and — because the aborted close's `finally` keeps `#openPromise` —
joins the cached episode; closing the second handle invokes the underlying
close a second time for the same episode. -/
def trSupersede : List Label :=
  [.openCall none, .openerFulfill 0 5, .openSuccess 0,
   .handleClose 0 (.num 9), .openCall none,
   .closeRawSettle 0 .ok, .closeFinalSettle 0,
   .openResumeAfterClose 1, .openSuccess 1, .handleClose 1 (.num 9)]

/-- The state reached by `trSupersede`. -/
def cSupersede : Config := (steps init trSupersede).getD init

/-- A single handle whose underlying close operation rejects: the counter is
decremented on the first `close()` call even though that close never
succeeds. -/
def trFailClose : List Label :=
  [.openCall none, .openerFulfill 0 5, .openSuccess 0,
   .handleClose 0 (.num 9), .closeRawSettle 0 (.err (.num 3)),
   .handleCloseDone 0]

/-- The state reached by `trFailClose`. -/
def cFailClose : Config := (steps init trFailClose).getD init

/-- Last-reference cancellation: the only waiting caller's signal aborts with
reason `7` while the opener is pending; the safeguard later closes the
late-arriving value, the safeguard close rejects with reason `3`, and the
caller's `open()` still rejects with the original reason `7`. -/
def trSafeguard : List Label :=
  [.openCall none, .openCancel 0 (.num 7), .openerFulfill 0 5,
   .safeguardRun 0, .closeRawSettle 0 (.err (.num 3)),
   .safeguardCloseDone 0, .closeFinalSettle 0]

/-- The state reached by `trSafeguard`. -/
def cSafeguard : Config := (steps init trSafeguard).getD init

/-- Scenario C of the spec: the opener rejects with reason `13`; the waiting
caller's `open()` rejects with `13`; a later `open()` invokes the opener
again. -/
def trReject : List Label :=
  [.openCall none, .openerReject 0 (.num 13), .openFail 0, .openCall none]

/-- The state reached by `trReject`. -/
def cReject : Config := (steps init trReject).getD init

/-- Double close of the same handle: the second `close()` call fails
synchronously with `Error('Already closed.')` and changes nothing. -/
def trDouble : List Label :=
  [.openCall none, .openerFulfill 0 5, .openSuccess 0,
   .handleClose 0 (.num 9), .handleClose 0 (.num 9)]

/-- The state reached by `trDouble`. -/
def cDouble : Config := (steps init trDouble).getD init

/-- A caller whose signal is already aborted at entry, on a fresh instance. -/
def trEntryAborted : List Label :=
  [.openCall (some (.num 4))]

/-- The state reached by `trEntryAborted`. -/
def cEntryAborted : Config := (steps init trEntryAborted).getD init

/-- An `open()` that arrives during an in-flight close and whose own signal
aborts while waiting the close out: the call rejects, the counter was never
incremented and no open was started. -/
def trCancelDuringClose : List Label :=
  [.openCall none, .openerFulfill 0 5, .openSuccess 0,
   .handleClose 0 (.num 9), .openCall none,
   .openCancelWaitClose 1 (.num 8)]

/-- The state reached by `trCancelDuringClose`. -/
def cCancelDuringClose : Config := (steps init trCancelDuringClose).getD init

/-! Association-list lemmas. -/

theorem getk_mem {α : Type} {k : Nat} {v : α} :
    ∀ {l : List (Nat × α)}, getk k l = some v → (k, v) ∈ l := by
  intro l
  induction l with
  | nil => intro h; simp [getk] at h
  | cons kv rest ih =>
    intro h
    by_cases hk : k = kv.1
    · subst hk
      simp only [getk, if_pos rfl] at h
      · cases h; exact List.mem_cons_self _ _
    · rw [show kv = (kv.1, kv.2) from rfl] at h
      simp only [getk, if_neg hk] at h
      exact List.mem_cons_of_mem _ (ih h)

theorem getk_setk_self {α : Type} {k : Nat} {v w : α} :
    ∀ {l : List (Nat × α)}, getk k l = some v → getk k (setk k w l) = some w := by
  intro l
  induction l with
  | nil => intro h; simp [getk] at h
  | cons kv rest ih =>
    intro h
    rw [show kv = (kv.1, kv.2) from rfl]
    by_cases hk : k = kv.1
    · simp [setk, getk, if_pos hk]
    · rw [show kv = (kv.1, kv.2) from rfl] at h
      simp only [getk, if_neg hk] at h
      simp [setk, getk, if_neg hk, ih h]

theorem getk_setk_ne {α : Type} {k k' : Nat} (hne : k' ≠ k) (w : α) :
    ∀ (l : List (Nat × α)), getk k' (setk k w l) = getk k' l := by
  intro l
  induction l with
  | nil => simp [setk]
  | cons kv rest ih =>
    rw [show kv = (kv.1, kv.2) from rfl]
    by_cases hk : k = kv.1
    · subst hk
      simp [setk, getk, if_neg hne]
    · simp only [setk, if_neg hk, getk]
      by_cases hk' : k' = kv.1
      · simp [if_pos hk']
      · simp [if_neg hk', ih]

theorem getk_cons {α : Type} (k k0 : Nat) (v : α) (l : List (Nat × α)) :
    getk k ((k0, v) :: l) = if k = k0 then some v else getk k l := rfl

theorem mem_setk {α : Type} {k : Nat} {w : α} {x : Nat × α} :
    ∀ {l : List (Nat × α)}, x ∈ setk k w l → x = (k, w) ∨ x ∈ l := by
  intro l
  induction l with
  | nil => intro h; simp [setk] at h
  | cons kv rest ih =>
    intro h
    rw [show kv = (kv.1, kv.2) from rfl] at h
    by_cases hk : k = kv.1
    · simp only [setk, if_pos hk] at h
      rcases List.mem_cons.mp h with h | h
      · exact Or.inl h
      · exact Or.inr (List.mem_cons_of_mem _ h)
    · simp only [setk, if_neg hk] at h
      rcases List.mem_cons.mp h with h | h
      · exact Or.inr (h ▸ List.mem_cons_self _ _)
      · rcases ih h with h | h
        · exact Or.inl h
        · exact Or.inr (List.mem_cons_of_mem _ h)

theorem cnt_setk {α : Type} {k : Nat} {v : α} (p : α → Bool) (w : α) :
    ∀ {l : List (Nat × α)}, getk k l = some v →
      cnt p (setk k w l) + (if p v then 1 else 0) =
        cnt p l + (if p w then 1 else 0) := by
  intro l
  induction l with
  | nil => intro h; simp [getk] at h
  | cons kv rest ih =>
    intro h
    rw [show kv = (kv.1, kv.2) from rfl] at h ⊢
    by_cases hk : k = kv.1
    · simp only [getk, if_pos hk] at h
      cases h
      simp only [setk, if_pos hk, cnt]
      omega
    · simp only [getk, if_neg hk] at h
      simp only [setk, if_neg hk, cnt]
      have := ih h
      omega

/-! The inductive invariant of reachable configurations. -/

/-- Is this `open()` call suspended at line 169 (counter incremented, not yet
settled or in the catch block)? -/
def isWaitOpen : OTaskPc → Bool
  | .waitOpen _ => true
  | _ => false

/-- Is this an issued handle on which `close()` has not yet been called? -/
def isLive (h : HandleSt) : Bool := !h.closed

/-- Number of `open()` calls suspended at line 169. -/
def inflight (c : Config) : Nat := cnt isWaitOpen c.tasks

/-- Number of issued handles on which `close()` has not yet been called. -/
def liveHandles (c : Config) : Nat := cnt isLive c.handles

/-- Invariant of reachable configurations:
the opener has run exactly once per allocated episode; the counter equals the
number of waiting `open()` calls plus the number of issued handles not yet
close-initiated; every issued handle carries the value its episode's promise
fulfilled with; a cached, still-pending episode has its controller installed;
task ids are below the id counter. -/
def Inv (c : Config) : Prop :=
  c.openerRuns = c.nextEp ∧
  c.count = (inflight c : Int) + (liveHandles c : Int) ∧
  (∀ kv ∈ c.handles, getk kv.2.episode c.openRes = some (.ok kv.2.value)) ∧
  (∀ e, c.openSlot = some e → getk e c.openRes = none →
    ∃ b, c.openCtrl = some (e, b)) ∧
  (∀ kv ∈ c.tasks, kv.1 < c.nextTid)

theorem inv_init : Inv init := by
  refine ⟨rfl, rfl, ?_, ?_, ?_⟩ <;> simp [init]

theorem keysBelow_setk {α : Type} {n k : Nat} {l : List (Nat × α)} {v : α} (w : α)
    (hb : ∀ kv ∈ l, kv.1 < n) (hg : getk k l = some v) :
    ∀ kv ∈ setk k w l, kv.1 < n := by
  intro kv hkv
  rcases mem_setk hkv with h | h
  · cases h
    exact hb (k, v) (getk_mem hg)
  · exact hb _ h

@[simp] theorem isWaitOpen_waitClose (cid : Nat) : isWaitOpen (.waitClose cid) = false := rfl

@[simp] theorem isWaitOpen_waitOpen (e : Nat) : isWaitOpen (.waitOpen e) = true := rfl

@[simp] theorem isWaitOpen_safeguardOpen (e : Nat) (r : JSVal) :
    isWaitOpen (.safeguardOpen e r) = false := rfl

@[simp] theorem isWaitOpen_safeguardClose (cid : Nat) (r : JSVal) :
    isWaitOpen (.safeguardClose cid r) = false := rfl

@[simp] theorem isWaitOpen_done (out : ODone) : isWaitOpen (.done out) = false := rfl

@[simp] theorem cnt_nil {α : Type} (p : α → Bool) : cnt p [] = 0 := rfl

@[simp] theorem cnt_cons {α : Type} (p : α → Bool) (kv : Nat × α) (l : List (Nat × α)) :
    cnt p (kv :: l) = (if p kv.2 then 1 else 0) + cnt p l := by
  cases kv
  rfl

/-- `failTask` (the catch block of `open()`) preserves the invariant. -/
theorem inv_failTask {c : Config} {tid e : Nat} {r : JSVal}
    (h1 : c.openerRuns = c.nextEp)
    (h2 : c.count = (inflight c : Int) + (liveHandles c : Int))
    (h3 : ∀ kv ∈ c.handles, getk kv.2.episode c.openRes = some (.ok kv.2.value))
    (h4 : ∀ e', c.openSlot = some e' → getk e' c.openRes = none →
      ∃ b, c.openCtrl = some (e', b))
    (h5 : ∀ kv ∈ c.tasks, kv.1 < c.nextTid)
    (ht : getk tid c.tasks = some (.waitOpen e)) :
    Inv (failTask c tid r) := by
  have hcnt : ∀ pcNew : OTaskPc, isWaitOpen pcNew = false →
      cnt isWaitOpen (setk tid pcNew c.tasks) + 1 = cnt isWaitOpen c.tasks := by
    intro pcNew hfalse
    have h := cnt_setk (k := tid) (v := OTaskPc.waitOpen e) isWaitOpen pcNew ht
    rw [hfalse] at h
    simpa [isWaitOpen] using h
  unfold failTask
  dsimp only
  by_cases h0 : c.count - 1 = 0
  · rw [if_pos h0]
    rcases hsl : c.openSlot with _ | e2 <;> dsimp only
    · refine ⟨h1, ?_, h3, ?_, ?_⟩
      · show c.count - 1 = ((inflight _ : Nat) : Int) + ((liveHandles _ : Nat) : Int)
        unfold inflight liveHandles at h2 ⊢
        dsimp only
        have := hcnt (.done (.err r)) rfl
        omega
      · intro e' hsl' _
        exact absurd hsl' (by simp)
      · exact fun kv hkv => keysBelow_setk _ h5 ht kv hkv
    · refine ⟨h1, ?_, h3, ?_, ?_⟩
      · show c.count - 1 = ((inflight _ : Nat) : Int) + ((liveHandles _ : Nat) : Int)
        unfold inflight liveHandles at h2 ⊢
        dsimp only
        have := hcnt (.safeguardOpen e2 r) rfl
        omega
      · intro e' hsl' hres
        dsimp only at hsl' hres
        obtain rfl : e2 = e' := by injection hsl'
        obtain ⟨b, hb⟩ := h4 e2 hsl hres
        exact ⟨true, by simp [hb]⟩
      · exact fun kv hkv => keysBelow_setk _ h5 ht kv hkv
  · rw [if_neg h0]
    refine ⟨h1, ?_, h3, h4, ?_⟩
    · show c.count - 1 = ((inflight _ : Nat) : Int) + ((liveHandles _ : Nat) : Int)
      unfold inflight liveHandles at h2 ⊢
      dsimp only
      have := hcnt (.done (.err r)) rfl
      omega
    · exact fun kv hkv => keysBelow_setk _ h5 ht kv hkv

/-- Invariant preservation: `open()` entry. -/
theorem inv_openCall {c c' : Config} {ab : Option JSVal}
    (hInv : Inv c) (hstep : step c (.openCall ab) = some c') : Inv c' := by
  obtain ⟨h1, h2, h3, h4, h5⟩ := hInv
  cases ab with
  | some r =>
    simp only [step] at hstep
    rw [Option.some_inj] at hstep
    subst hstep
    refine ⟨h1, ?_, h3, h4, ?_⟩
    · unfold inflight liveHandles at h2 ⊢
      dsimp only
      simp only [cnt_cons, isWaitOpen_done]
      simpa using h2
    · intro kv hkv
      rcases List.mem_cons.mp hkv with h | h
      · cases h; simp
      · exact Nat.lt_succ_of_lt (h5 _ h)
  | none =>
    simp only [step] at hstep
    rcases hcs : c.closeSlot with _ | ⟨cid, ab2⟩ <;> rw [hcs] at hstep <;> dsimp only at hstep
    · unfold ensureOpen at hstep
      dsimp only at hstep
      rcases hsl : c.openSlot with _ | e2 <;> rw [hsl] at hstep <;> dsimp only at hstep <;>
        rw [Option.some_inj] at hstep <;> subst hstep
      · refine ⟨?_, ?_, h3, ?_, ?_⟩
        · dsimp only; omega
        · unfold inflight liveHandles at h2 ⊢
          dsimp only
          simp [cnt_cons, isWaitOpen_waitOpen]
          omega
        · intro e' hsl' hres
          dsimp only at hsl' hres ⊢
          obtain rfl : c.nextEp = e' := by injection hsl'
          exact ⟨false, rfl⟩
        · intro kv hkv
          dsimp only at hkv ⊢
          rcases List.mem_cons.mp hkv with h | h
          · cases h; simp
          · exact Nat.lt_succ_of_lt (h5 _ h)
      · refine ⟨h1, ?_, h3, ?_, ?_⟩
        · unfold inflight liveHandles at h2 ⊢
          dsimp only
          simp [cnt_cons, isWaitOpen_waitOpen]
          omega
        · intro e' hsl' hres
          dsimp only at hsl' hres ⊢
          obtain rfl : e2 = e' := by injection hsl'
          exact h4 e2 hsl hres
        · intro kv hkv
          dsimp only at hkv ⊢
          rcases List.mem_cons.mp hkv with h | h
          · cases h; simp
          · exact Nat.lt_succ_of_lt (h5 _ h)
    · rw [Option.some_inj] at hstep
      subst hstep
      refine ⟨h1, ?_, h3, h4, ?_⟩
      · unfold inflight liveHandles at h2 ⊢
        dsimp only
        simp only [cnt_cons, isWaitOpen_waitClose]
        simpa using h2
      · intro kv hkv
        rcases List.mem_cons.mp hkv with h | h
        · cases h; simp
        · exact Nat.lt_succ_of_lt (h5 _ h)

/-- Invariant preservation: the caller's signal aborts while waiting out a
close. -/
theorem inv_openCancelWaitClose {c c' : Config} {tid : Nat} {r : JSVal}
    (hInv : Inv c) (hstep : step c (.openCancelWaitClose tid r) = some c') : Inv c' := by
  obtain ⟨h1, h2, h3, h4, h5⟩ := hInv
  simp only [step] at hstep
  rcases ht : getk tid c.tasks with _ | pc <;> rw [ht] at hstep
  · simp at hstep
  · cases pc <;> dsimp only at hstep
    case waitClose cid =>
      rw [Option.some_inj] at hstep
      subst hstep
      refine ⟨h1, ?_, h3, h4, ?_⟩
      · unfold inflight liveHandles at h2 ⊢
        dsimp only
        have hc := cnt_setk (k := tid) (v := OTaskPc.waitClose cid) isWaitOpen (.done (.err r)) ht
        simp only [isWaitOpen_waitClose, isWaitOpen_done] at hc
        omega
      · exact fun kv hkv => keysBelow_setk _ h5 ht kv hkv
    all_goals simp at hstep

/-- Invariant preservation: an `open()` call resumes after the close it was
waiting on settled. -/
theorem inv_openResumeAfterClose {c c' : Config} {tid : Nat}
    (hInv : Inv c) (hstep : step c (.openResumeAfterClose tid) = some c') : Inv c' := by
  obtain ⟨h1, h2, h3, h4, h5⟩ := hInv
  simp only [step] at hstep
  rcases ht : getk tid c.tasks with _ | pc <;> rw [ht] at hstep
  · simp at hstep
  · cases pc <;> dsimp only at hstep
    case waitClose cid =>
      split_ifs at hstep with hin
      · unfold ensureOpen at hstep
        dsimp only at hstep
        rcases hsl : c.openSlot with _ | e2 <;> rw [hsl] at hstep <;> dsimp only at hstep <;>
          rw [Option.some_inj] at hstep <;> subst hstep
        · refine ⟨?_, ?_, h3, ?_, ?_⟩
          · dsimp only; omega
          · unfold inflight liveHandles at h2 ⊢
            dsimp only
            have hc := cnt_setk (k := tid) (v := OTaskPc.waitClose cid) isWaitOpen
              (.waitOpen c.nextEp) ht
            simp at hc
            omega
          · intro e' hsl' hres
            dsimp only at hsl' hres ⊢
            obtain rfl : c.nextEp = e' := by injection hsl'
            exact ⟨false, rfl⟩
          · exact fun kv hkv => keysBelow_setk _ h5 ht kv hkv
        · refine ⟨h1, ?_, h3, ?_, ?_⟩
          · unfold inflight liveHandles at h2 ⊢
            dsimp only
            have hc := cnt_setk (k := tid) (v := OTaskPc.waitClose cid) isWaitOpen
              (.waitOpen e2) ht
            simp at hc
            omega
          · intro e' hsl' hres
            dsimp only at hsl' hres ⊢
            obtain rfl : e2 = e' := by injection hsl'
            exact h4 e2 hsl hres
          · exact fun kv hkv => keysBelow_setk _ h5 ht kv hkv
    all_goals simp at hstep

/-- Invariant preservation: the opener's promise fulfills. -/
theorem inv_openerFulfill {c c' : Config} {e v : Nat}
    (hInv : Inv c) (hstep : step c (.openerFulfill e v) = some c') : Inv c' := by
  obtain ⟨h1, h2, h3, h4, h5⟩ := hInv
  simp only [step] at hstep
  split_ifs at hstep with hg
  obtain ⟨hlt, hnone⟩ := hg
  have hres : ∀ kv ∈ c.handles,
      getk kv.2.episode ((e, ORes.ok v) :: c.openRes) = some (.ok kv.2.value) := by
    intro kv hkv
    have hold := h3 kv hkv
    rw [getk_cons]
    split_ifs with heq
    · rw [heq] at hold
      rw [hold] at hnone
      cases hnone
    · exact hold
  rcases hctrl : c.openCtrl with _ | ⟨e2, b2⟩ <;> rw [hctrl] at hstep <;> dsimp only at hstep
  · rw [Option.some_inj] at hstep
    subst hstep
    refine ⟨h1, h2, hres, ?_, h5⟩
    intro e' hsl' hres'
    dsimp only at hsl' hres' ⊢
    obtain ⟨b, hb⟩ := h4 e' hsl' (by
      rw [getk_cons] at hres'
      split_ifs at hres'
      exact hres')
    rw [hctrl] at hb
    cases hb
  · by_cases he : e2 = e
    · rw [if_pos he] at hstep
      rw [Option.some_inj] at hstep
      subst hstep
      refine ⟨h1, h2, hres, ?_, h5⟩
      intro e' hsl' hres'
      dsimp only at hsl' hres' ⊢
      rw [getk_cons] at hres'
      split_ifs at hres' with he'
      obtain ⟨b, hb⟩ := h4 e' hsl' hres'
      rw [hctrl] at hb
      injection hb with hb1
      injection hb1 with hb2 _
      exact absurd (hb2.symm.trans he) he'
    · rw [if_neg he] at hstep
      rw [Option.some_inj] at hstep
      subst hstep
      refine ⟨h1, h2, hres, ?_, h5⟩
      intro e' hsl' hres'
      dsimp only at hsl' hres' ⊢
      rw [getk_cons] at hres'
      split_ifs at hres'
      rw [← hctrl]
      exact h4 e' hsl' hres'

/-- Invariant preservation: the opener's promise rejects. -/
theorem inv_openerReject {c c' : Config} {e : Nat} {r : JSVal}
    (hInv : Inv c) (hstep : step c (.openerReject e r) = some c') : Inv c' := by
  obtain ⟨h1, h2, h3, h4, h5⟩ := hInv
  simp only [step] at hstep
  split_ifs at hstep with hg
  obtain ⟨hlt, hnone⟩ := hg
  have hres : ∀ kv ∈ c.handles,
      getk kv.2.episode ((e, ORes.err r) :: c.openRes) = some (.ok kv.2.value) := by
    intro kv hkv
    have hold := h3 kv hkv
    rw [getk_cons]
    split_ifs with heq
    · rw [heq] at hold
      rw [hold] at hnone
      cases hnone
    · exact hold
  rcases hctrl : c.openCtrl with _ | ⟨e2, b2⟩ <;> rw [hctrl] at hstep <;> dsimp only at hstep
  · rw [Option.some_inj] at hstep
    subst hstep
    refine ⟨h1, h2, hres, ?_, h5⟩
    intro e' hsl' hres'
    dsimp only at hsl' hres' ⊢
    obtain ⟨b, hb⟩ := h4 e' hsl' (by
      rw [getk_cons] at hres'
      split_ifs at hres'
      exact hres')
    rw [hctrl] at hb
    cases hb
  · by_cases he : e2 = e
    · rw [if_pos he] at hstep
      rw [Option.some_inj] at hstep
      subst hstep
      refine ⟨h1, h2, hres, ?_, h5⟩
      intro e' hsl' _
      exact absurd hsl' (by simp)
    · rw [if_neg he] at hstep
      rw [Option.some_inj] at hstep
      subst hstep
      refine ⟨h1, h2, hres, ?_, h5⟩
      intro e' hsl' hres'
      dsimp only at hsl' hres' ⊢
      rw [getk_cons] at hres'
      split_ifs at hres'
      rw [← hctrl]
      exact h4 e' hsl' hres'

/-- Invariant preservation: a waiting call succeeds and a handle is issued. -/
theorem inv_openSuccess {c c' : Config} {tid : Nat}
    (hInv : Inv c) (hstep : step c (.openSuccess tid) = some c') : Inv c' := by
  obtain ⟨h1, h2, h3, h4, h5⟩ := hInv
  simp only [step] at hstep
  rcases ht : getk tid c.tasks with _ | pc <;> rw [ht] at hstep
  · simp at hstep
  · cases pc <;> dsimp only at hstep
    case waitOpen e =>
      rcases hres : getk e c.openRes with _ | res <;> rw [hres] at hstep
      · simp at hstep
      · cases res <;> dsimp only at hstep
        case ok v =>
          rw [Option.some_inj] at hstep
          subst hstep
          refine ⟨h1, ?_, ?_, h4, ?_⟩
          · unfold inflight liveHandles at h2 ⊢
            dsimp only
            have hc := cnt_setk (k := tid) (v := OTaskPc.waitOpen e) isWaitOpen
              (.done (.ok c.nextHid)) ht
            simp at hc
            simp [isLive]
            omega
          · intro kv hkv
            dsimp only at hkv ⊢
            rcases List.mem_cons.mp hkv with h | h
            · cases h
              exact hres
            · exact h3 kv h
          · exact fun kv hkv => keysBelow_setk _ h5 ht kv hkv
        case err r => simp at hstep
    all_goals simp at hstep

/-- Invariant preservation: a waiting call observes the rejected promise. -/
theorem inv_openFail {c c' : Config} {tid : Nat}
    (hInv : Inv c) (hstep : step c (.openFail tid) = some c') : Inv c' := by
  obtain ⟨h1, h2, h3, h4, h5⟩ := hInv
  simp only [step] at hstep
  rcases ht : getk tid c.tasks with _ | pc <;> rw [ht] at hstep
  · simp at hstep
  · cases pc <;> dsimp only at hstep
    case waitOpen e =>
      rcases hres : getk e c.openRes with _ | res <;> rw [hres] at hstep
      · simp at hstep
      · cases res <;> dsimp only at hstep
        case ok v => simp at hstep
        case err r =>
          rw [Option.some_inj] at hstep
          subst hstep
          exact inv_failTask h1 h2 h3 h4 h5 ht
    all_goals simp at hstep

/-- Invariant preservation: a waiting call's own signal aborts. -/
theorem inv_openCancel {c c' : Config} {tid : Nat} {r : JSVal}
    (hInv : Inv c) (hstep : step c (.openCancel tid r) = some c') : Inv c' := by
  obtain ⟨h1, h2, h3, h4, h5⟩ := hInv
  simp only [step] at hstep
  rcases ht : getk tid c.tasks with _ | pc <;> rw [ht] at hstep
  · simp at hstep
  · cases pc <;> dsimp only at hstep
    case waitOpen e =>
      split_ifs at hstep
      rw [Option.some_inj] at hstep
      subst hstep
      exact inv_failTask h1 h2 h3 h4 h5 ht
    all_goals simp at hstep

/-- Invariant preservation: the safeguard observes the settled episode. -/
theorem inv_safeguardRun {c c' : Config} {tid : Nat}
    (hInv : Inv c) (hstep : step c (.safeguardRun tid) = some c') : Inv c' := by
  obtain ⟨h1, h2, h3, h4, h5⟩ := hInv
  simp only [step] at hstep
  rcases ht : getk tid c.tasks with _ | pc <;> rw [ht] at hstep
  · simp at hstep
  · cases pc <;> dsimp only at hstep
    case safeguardOpen e r =>
      rcases hres : getk e c.openRes with _ | res <;> rw [hres] at hstep
      · simp at hstep
      · cases res <;> dsimp only at hstep
        case ok v =>
          unfold invokeClose at hstep
          dsimp only at hstep
          rw [Option.some_inj] at hstep
          subst hstep
          refine ⟨h1, ?_, h3, h4, ?_⟩
          · unfold inflight liveHandles at h2 ⊢
            dsimp only
            have hc := cnt_setk (k := tid) (v := OTaskPc.safeguardOpen e r) isWaitOpen
              (.safeguardClose c.nextCid r) ht
            simp at hc
            omega
          · exact fun kv hkv => keysBelow_setk _ h5 ht kv hkv
        case err r2 =>
          rw [Option.some_inj] at hstep
          subst hstep
          refine ⟨h1, ?_, h3, h4, ?_⟩
          · unfold inflight liveHandles at h2 ⊢
            dsimp only
            have hc := cnt_setk (k := tid) (v := OTaskPc.safeguardOpen e r) isWaitOpen
              (.done (.err r)) ht
            simp at hc
            omega
          · exact fun kv hkv => keysBelow_setk _ h5 ht kv hkv
    all_goals simp at hstep

/-- Invariant preservation: the safeguard's close settles. -/
theorem inv_safeguardCloseDone {c c' : Config} {tid : Nat}
    (hInv : Inv c) (hstep : step c (.safeguardCloseDone tid) = some c') : Inv c' := by
  obtain ⟨h1, h2, h3, h4, h5⟩ := hInv
  simp only [step] at hstep
  rcases ht : getk tid c.tasks with _ | pc <;> rw [ht] at hstep
  · simp at hstep
  · cases pc <;> dsimp only at hstep
    case safeguardClose cid r =>
      split_ifs at hstep
      rw [Option.some_inj] at hstep
      subst hstep
      refine ⟨h1, ?_, h3, h4, ?_⟩
      · unfold inflight liveHandles at h2 ⊢
        dsimp only
        have hc := cnt_setk (k := tid) (v := OTaskPc.safeguardClose cid r) isWaitOpen
          (.done (.err r)) ht
        simp at hc
        omega
      · exact fun kv hkv => keysBelow_setk _ h5 ht kv hkv
    all_goals simp at hstep

/-- Invariant preservation: `handle.close()` runs its synchronous part. -/
theorem inv_handleClose {c c' : Config} {hid : Nat} {r : JSVal}
    (hInv : Inv c) (hstep : step c (.handleClose hid r) = some c') : Inv c' := by
  obtain ⟨h1, h2, h3, h4, h5⟩ := hInv
  simp only [step] at hstep
  rcases hh : getk hid c.handles with _ | h <;> rw [hh] at hstep
  · simp at hstep
  · dsimp only at hstep
    by_cases hcl : h.closed
    · rw [if_pos hcl] at hstep
      rw [Option.some_inj] at hstep
      subst hstep
      exact ⟨h1, h2, h3, h4, h5⟩
    · rw [if_neg hcl] at hstep
      have hclosed : h.closed = false := Bool.eq_false_iff.mpr hcl
      have hlive : isLive h = true := by
        unfold isLive
        rw [hclosed]
        rfl
      have hlive' : isLive { h with closed := true } = false := by
        unfold isLive
        simp
      have hc := cnt_setk (k := hid) (v := h) isLive { h with closed := true } hh
      rw [hlive, hlive'] at hc
      simp at hc
      have hres : ∀ kv ∈ setk hid { h with closed := true } c.handles,
          getk kv.2.episode c.openRes = some (.ok kv.2.value) := by
        intro kv hkv
        rcases mem_setk hkv with hx | hx
        · cases hx
          exact h3 (hid, h) (getk_mem hh)
        · exact h3 kv hx
      by_cases h0 : c.count - 1 = 0
      · rw [if_pos h0] at hstep
        unfold invokeClose at hstep
        dsimp only at hstep
        rw [Option.some_inj] at hstep
        subst hstep
        refine ⟨h1, ?_, hres, h4, h5⟩
        unfold inflight liveHandles at h2 ⊢
        dsimp only
        omega
      · rw [if_neg h0] at hstep
        rw [Option.some_inj] at hstep
        subst hstep
        refine ⟨h1, ?_, hres, h4, h5⟩
        unfold inflight liveHandles at h2 ⊢
        dsimp only
        omega

/-- Invariant preservation: a triggering `handle.close()` call settles. -/
theorem inv_handleCloseDone {c c' : Config} {ctid : Nat}
    (hInv : Inv c) (hstep : step c (.handleCloseDone ctid) = some c') : Inv c' := by
  obtain ⟨h1, h2, h3, h4, h5⟩ := hInv
  simp only [step] at hstep
  rcases hct : getk ctid c.ctasks with _ | ct <;> rw [hct] at hstep
  · simp at hstep
  · rcases ct with ⟨hid, pc⟩
    cases pc <;> dsimp only at hstep
    case waitClose cid =>
      rcases hraw : getk cid c.closeRawRes with _ | out <;> rw [hraw] at hstep
      · simp at hstep
      · dsimp only at hstep
        rw [Option.some_inj] at hstep
        subst hstep
        exact ⟨h1, h2, h3, h4, h5⟩
    all_goals simp at hstep

/-- Invariant preservation: the close implementation's own promise settles. -/
theorem inv_closeRawSettle {c c' : Config} {cid : Nat} {out : CRes}
    (hInv : Inv c) (hstep : step c (.closeRawSettle cid out) = some c') : Inv c' := by
  obtain ⟨h1, h2, h3, h4, h5⟩ := hInv
  simp only [step] at hstep
  split_ifs at hstep
  rw [Option.some_inj] at hstep
  subst hstep
  exact ⟨h1, h2, h3, h4, h5⟩

/-- Invariant preservation: the `#closePromise` field settles and cleans up. -/
theorem inv_closeFinalSettle {c c' : Config} {cid : Nat}
    (hInv : Inv c) (hstep : step c (.closeFinalSettle cid) = some c') : Inv c' := by
  obtain ⟨h1, h2, h3, h4, h5⟩ := hInv
  simp only [step] at hstep
  rcases hcs : c.closeSlot with _ | ⟨cid2, ab⟩ <;> rw [hcs] at hstep
  · simp at hstep
  · dsimp only at hstep
    split_ifs at hstep with hg hab
    · rw [Option.some_inj] at hstep
      subst hstep
      refine ⟨h1, h2, h3, ?_, h5⟩
      intro e' hsl' hres'
      dsimp only at hsl' hres' ⊢
      exact h4 e' hsl' hres'
    · rw [Option.some_inj] at hstep
      subst hstep
      refine ⟨h1, h2, h3, ?_, h5⟩
      intro e' hsl' _
      exact absurd hsl' (by simp)

/-- Every enabled transition preserves the invariant. -/
theorem inv_step {c c' : Config} {l : Label}
    (hInv : Inv c) (hstep : step c l = some c') : Inv c' := by
  cases l with
  | openCall ab => exact inv_openCall hInv hstep
  | openCancelWaitClose tid r => exact inv_openCancelWaitClose hInv hstep
  | openResumeAfterClose tid => exact inv_openResumeAfterClose hInv hstep
  | openerFulfill e v => exact inv_openerFulfill hInv hstep
  | openerReject e r => exact inv_openerReject hInv hstep
  | openSuccess tid => exact inv_openSuccess hInv hstep
  | openFail tid => exact inv_openFail hInv hstep
  | openCancel tid r => exact inv_openCancel hInv hstep
  | safeguardRun tid => exact inv_safeguardRun hInv hstep
  | safeguardCloseDone tid => exact inv_safeguardCloseDone hInv hstep
  | handleClose hid r => exact inv_handleClose hInv hstep
  | handleCloseDone ctid => exact inv_handleCloseDone hInv hstep
  | closeRawSettle cid out => exact inv_closeRawSettle hInv hstep
  | closeFinalSettle cid => exact inv_closeFinalSettle hInv hstep

/-- The invariant holds along every execution. -/
theorem inv_steps {tr : List Label} :
    ∀ {c c' : Config}, Inv c → steps c tr = some c' → Inv c' := by
  induction tr with
  | nil =>
    intro c c' hInv hrun
    simp only [steps, Option.some_inj] at hrun
    subst hrun
    exact hInv
  | cons l tr ih =>
    intro c c' hInv hrun
    simp only [steps] at hrun
    rcases hs : step c l with _ | c1 <;> rw [hs] at hrun
    · simp at hrun
    · exact ih (inv_step hInv hs) hrun

/-- The invariant holds in every configuration reachable from a fresh
instance. -/
theorem inv_reach {tr : List Label} {c : Config}
    (hrun : steps init tr = some c) : Inv c :=
  inv_steps inv_init hrun

theorem getk_lt {α : Type} {k n : Nat} {v : α} {l : List (Nat × α)}
    (hb : ∀ kv ∈ l, kv.1 < n) (hg : getk k l = some v) : k < n :=
  hb (k, v) (getk_mem hg)

/-- The catch block only rewrites the failing task's own entry, to the
safeguard pc or to final rejection with the original reason; the rest of the
task list, the promise stores and the close log are untouched. -/
theorem failTask_shape (c : Config) (tid : Nat) (r : JSVal) :
    (∃ pc', (failTask c tid r).tasks = setk tid pc' c.tasks ∧
      (pc' = OTaskPc.done (.err r) ∨ ∃ e2, pc' = .safeguardOpen e2 r)) ∧
    (failTask c tid r).openRes = c.openRes ∧
    (failTask c tid r).closeLog = c.closeLog ∧
    (failTask c tid r).count = c.count - 1 := by
  unfold failTask
  dsimp only
  by_cases h0 : c.count - 1 = 0
  · rw [if_pos h0]
    rcases hsl : c.openSlot with _ | e2 <;> dsimp only
    · exact ⟨⟨.done (.err r), rfl, Or.inl rfl⟩, rfl, rfl, rfl⟩
    · exact ⟨⟨.safeguardOpen e2 r, rfl, Or.inr ⟨e2, rfl⟩⟩, rfl, rfl, rfl⟩
  · rw [if_neg h0]
    exact ⟨⟨.done (.err r), rfl, Or.inl rfl⟩, rfl, rfl, rfl⟩

/-- Status of an `open()` call that is bound to reject with reason `r`:
it waits on an episode whose promise rejected with `r`, or it is on the
safeguard path carrying `r` as the original reason, or it has already
settled with rejection `r`. -/
def RejP (tid : Nat) (r : JSVal) (c : Config) : Prop :=
  (∃ e, getk tid c.tasks = some (.waitOpen e) ∧ getk e c.openRes = some (.err r)) ∨
  (∃ e, getk tid c.tasks = some (.safeguardOpen e r)) ∨
  (∃ cid, getk tid c.tasks = some (.safeguardClose cid r)) ∨
  getk tid c.tasks = some (.done (.err r))

/-- A settled promise result survives any later settlement of another
episode. -/
theorem getk_res_persist {α : Type} {e e2 : Nat} {o : α} {o2 : α}
    {l : List (Nat × α)} (h : getk e l = some o) (hnone : getk e2 l = none) :
    getk e ((e2, o2) :: l) = some o := by
  rw [getk_cons]
  split_ifs with heq
  · rw [heq] at h
    rw [h] at hnone
    cases hnone
  · exact h

/-- One step preserves `RejP`: a caller bound to reject with `r` can only
move along the rejection path and finally settles with `r`. -/
theorem rejp_step {c c' : Config} {l : Label} {tid : Nat} {r : JSVal}
    (hInv : Inv c) (hstep : step c l = some c') (hp : RejP tid r c) : RejP tid r c' := by
  obtain ⟨h1, h2, h3, h4, h5⟩ := hInv
  -- a task entry mentioned by `hp` gives `tid < c.nextTid`
  have hlt : tid < c.nextTid := by
    rcases hp with ⟨e, ht, _⟩ | ⟨e, ht⟩ | ⟨cid, ht⟩ | ht <;> exact getk_lt h5 ht
  cases l with
  | openCall ab =>
    have htasks : ∀ x : OTaskPc, getk tid ((c.nextTid, x) :: c.tasks) = getk tid c.tasks := by
      intro x
      rw [getk_cons, if_neg (Nat.ne_of_lt hlt)]
    cases ab with
    | some r2 =>
      simp only [step] at hstep
      rw [Option.some_inj] at hstep
      subst hstep
      unfold RejP at hp ⊢
      dsimp only
      rw [htasks]
      exact hp
    | none =>
      simp only [step] at hstep
      rcases hcs : c.closeSlot with _ | ⟨cid, ab2⟩ <;> rw [hcs] at hstep <;> dsimp only at hstep
      · unfold ensureOpen at hstep
        dsimp only at hstep
        rcases hsl : c.openSlot with _ | e2 <;> rw [hsl] at hstep <;> dsimp only at hstep <;>
          rw [Option.some_inj] at hstep <;> subst hstep <;>
          unfold RejP at hp ⊢ <;> dsimp only <;> rw [htasks]
        · exact hp
        · exact hp
      · rw [Option.some_inj] at hstep
        subst hstep
        unfold RejP at hp ⊢
        dsimp only
        rw [htasks]
        exact hp
  | openCancelWaitClose tid2 r2 =>
    simp only [step] at hstep
    rcases ht2 : getk tid2 c.tasks with _ | pc <;> rw [ht2] at hstep
    · simp at hstep
    · cases pc <;> dsimp only at hstep
      case waitClose cid =>
        rw [Option.some_inj] at hstep
        subst hstep
        have hne : tid2 ≠ tid := by
          intro hcontra
          subst hcontra
          rcases hp with ⟨e, ht, _⟩ | ⟨e, ht⟩ | ⟨cid2, ht⟩ | ht <;>
            rw [ht2] at ht <;> cases ht
        unfold RejP at hp ⊢
        dsimp only
        rw [getk_setk_ne (fun h => hne h.symm)]
        exact hp
      all_goals simp at hstep
  | openResumeAfterClose tid2 =>
    simp only [step] at hstep
    rcases ht2 : getk tid2 c.tasks with _ | pc <;> rw [ht2] at hstep
    · simp at hstep
    · cases pc <;> dsimp only at hstep
      case waitClose cid =>
        split_ifs at hstep with hin
        have hne : tid2 ≠ tid := by
          intro hcontra
          subst hcontra
          rcases hp with ⟨e, ht, _⟩ | ⟨e, ht⟩ | ⟨cid2, ht⟩ | ht <;>
            rw [ht2] at ht <;> cases ht
        unfold ensureOpen at hstep
        dsimp only at hstep
        rcases hsl : c.openSlot with _ | e2 <;> rw [hsl] at hstep <;> dsimp only at hstep <;>
          rw [Option.some_inj] at hstep <;> subst hstep <;>
          unfold RejP at hp ⊢ <;> dsimp only <;>
          rw [getk_setk_ne (fun h => hne h.symm)] <;> exact hp
      all_goals simp at hstep
  | openerFulfill e2 v =>
    simp only [step] at hstep
    split_ifs at hstep with hg
    obtain ⟨hlt2, hnone⟩ := hg
    have hres : ∀ (e : Nat) (o : ORes), getk e c.openRes = some o →
        getk e ((e2, ORes.ok v) :: c.openRes) = some o :=
      fun e o h => getk_res_persist h hnone
    rcases hctrl : c.openCtrl with _ | p <;> rw [hctrl] at hstep <;> dsimp only at hstep
    · rw [Option.some_inj] at hstep
      subst hstep
      unfold RejP at hp ⊢
      dsimp only
      rcases hp with ⟨e, ht, hr⟩ | hp' | hp' | hp'
      · exact Or.inl ⟨e, ht, hres e _ hr⟩
      · exact Or.inr (Or.inl hp')
      · exact Or.inr (Or.inr (Or.inl hp'))
      · exact Or.inr (Or.inr (Or.inr hp'))
    · rcases p with ⟨e3, b3⟩
      dsimp only at hstep
      by_cases he : e3 = e2 <;> [rw [if_pos he] at hstep; rw [if_neg he] at hstep] <;>
        rw [Option.some_inj] at hstep <;> subst hstep <;>
        unfold RejP at hp ⊢ <;> dsimp only <;>
        (rcases hp with ⟨e, ht, hr⟩ | hp' | hp' | hp'
         · exact Or.inl ⟨e, ht, hres e _ hr⟩
         · exact Or.inr (Or.inl hp')
         · exact Or.inr (Or.inr (Or.inl hp'))
         · exact Or.inr (Or.inr (Or.inr hp')))
  | openerReject e2 r2 =>
    simp only [step] at hstep
    split_ifs at hstep with hg
    obtain ⟨hlt2, hnone⟩ := hg
    have hres : ∀ (e : Nat) (o : ORes), getk e c.openRes = some o →
        getk e ((e2, ORes.err r2) :: c.openRes) = some o :=
      fun e o h => getk_res_persist h hnone
    rcases hctrl : c.openCtrl with _ | p <;> rw [hctrl] at hstep <;> dsimp only at hstep
    · rw [Option.some_inj] at hstep
      subst hstep
      unfold RejP at hp ⊢
      dsimp only
      rcases hp with ⟨e, ht, hr⟩ | hp' | hp' | hp'
      · exact Or.inl ⟨e, ht, hres e _ hr⟩
      · exact Or.inr (Or.inl hp')
      · exact Or.inr (Or.inr (Or.inl hp'))
      · exact Or.inr (Or.inr (Or.inr hp'))
    · rcases p with ⟨e3, b3⟩
      dsimp only at hstep
      by_cases he : e3 = e2 <;> [rw [if_pos he] at hstep; rw [if_neg he] at hstep] <;>
        rw [Option.some_inj] at hstep <;> subst hstep <;>
        unfold RejP at hp ⊢ <;> dsimp only <;>
        (rcases hp with ⟨e, ht, hr⟩ | hp' | hp' | hp'
         · exact Or.inl ⟨e, ht, hres e _ hr⟩
         · exact Or.inr (Or.inl hp')
         · exact Or.inr (Or.inr (Or.inl hp'))
         · exact Or.inr (Or.inr (Or.inr hp')))
  | openSuccess tid2 =>
    simp only [step] at hstep
    rcases ht2 : getk tid2 c.tasks with _ | pc <;> rw [ht2] at hstep
    · simp at hstep
    · cases pc <;> dsimp only at hstep
      case waitOpen e2 =>
        rcases hres2 : getk e2 c.openRes with _ | res <;> rw [hres2] at hstep
        · simp at hstep
        · cases res <;> dsimp only at hstep
          case ok v =>
            rw [Option.some_inj] at hstep
            subst hstep
            have hne : tid2 ≠ tid := by
              intro hcontra
              subst hcontra
              rcases hp with ⟨e, ht, hr⟩ | ⟨e, ht⟩ | ⟨cid2, ht⟩ | ht <;> rw [ht2] at ht
              · injection ht with hpc
                injection hpc with hee
                subst hee
                rw [hres2] at hr
                cases hr
              all_goals cases ht
            unfold RejP at hp ⊢
            dsimp only
            rw [getk_setk_ne (fun h => hne h.symm)]
            exact hp
          case err r3 => simp at hstep
      all_goals simp at hstep
  | openFail tid2 =>
    simp only [step] at hstep
    rcases ht2 : getk tid2 c.tasks with _ | pc <;> rw [ht2] at hstep
    · simp at hstep
    · cases pc <;> dsimp only at hstep
      case waitOpen e2 =>
        rcases hres2 : getk e2 c.openRes with _ | res <;> rw [hres2] at hstep
        · simp at hstep
        · cases res <;> dsimp only at hstep
          case ok v => simp at hstep
          case err r3 =>
            rw [Option.some_inj] at hstep
            subst hstep
            obtain ⟨⟨pc', hset, hpc'⟩, hresF, _, _⟩ := failTask_shape c tid2 r3
            by_cases hne : tid2 = tid
            · subst hne
              -- the failing task is ours: r3 = r from determinism of getk
              have hr3 : r3 = r := by
                rcases hp with ⟨e, ht, hr⟩ | ⟨e, ht⟩ | ⟨cid2, ht⟩ | ht <;> rw [ht2] at ht
                · injection ht with hpc
                  injection hpc with hee
                  subst hee
                  rw [hres2] at hr
                  injection hr with hx
                  injection hx
                all_goals cases ht
              subst hr3
              unfold RejP
              rw [hset, hresF]
              rcases hpc' with hpc' | ⟨e4, hpc'⟩ <;> subst hpc'
              · exact Or.inr (Or.inr (Or.inr (getk_setk_self ht2)))
              · exact Or.inr (Or.inl ⟨e4, getk_setk_self ht2⟩)
            · unfold RejP at hp ⊢
              rw [hset, hresF, getk_setk_ne (fun h => hne h.symm)]
              exact hp
      all_goals simp at hstep
  | openCancel tid2 r2 =>
    simp only [step] at hstep
    rcases ht2 : getk tid2 c.tasks with _ | pc <;> rw [ht2] at hstep
    · simp at hstep
    · cases pc <;> dsimp only at hstep
      case waitOpen e2 =>
        split_ifs at hstep with hnone2
        rw [Option.some_inj] at hstep
        subst hstep
        obtain ⟨⟨pc', hset, hpc'⟩, hresF, _, _⟩ := failTask_shape c tid2 r2
        have hne : tid2 ≠ tid := by
          intro hcontra
          subst hcontra
          rcases hp with ⟨e, ht, hr⟩ | ⟨e, ht⟩ | ⟨cid2, ht⟩ | ht <;> rw [ht2] at ht
          · injection ht with hpc
            injection hpc with hee
            subst hee
            rw [hnone2] at hr
            cases hr
          all_goals cases ht
        unfold RejP at hp ⊢
        rw [hset, hresF, getk_setk_ne (fun h => hne h.symm)]
        exact hp
      all_goals simp at hstep
  | safeguardRun tid2 =>
    simp only [step] at hstep
    rcases ht2 : getk tid2 c.tasks with _ | pc <;> rw [ht2] at hstep
    · simp at hstep
    · cases pc <;> dsimp only at hstep
      case safeguardOpen e2 r3 =>
        rcases hres2 : getk e2 c.openRes with _ | res <;> rw [hres2] at hstep
        · simp at hstep
        · cases res <;> dsimp only at hstep
          case ok v =>
            unfold invokeClose at hstep
            dsimp only at hstep
            rw [Option.some_inj] at hstep
            subst hstep
            by_cases hne : tid2 = tid
            · subst hne
              have hr3 : r3 = r := by
                rcases hp with ⟨e, ht, hr⟩ | ⟨e, ht⟩ | ⟨cid2, ht⟩ | ht <;> rw [ht2] at ht
                · cases ht
                · injection ht with hpc
                  injection hpc with h1 hrr
                all_goals cases ht
              subst hr3
              unfold RejP
              dsimp only
              exact Or.inr (Or.inr (Or.inl ⟨c.nextCid, getk_setk_self ht2⟩))
            · unfold RejP at hp ⊢
              dsimp only
              rw [getk_setk_ne (fun h => hne h.symm)]
              exact hp
          case err r4 =>
            rw [Option.some_inj] at hstep
            subst hstep
            by_cases hne : tid2 = tid
            · subst hne
              have hr3 : r3 = r := by
                rcases hp with ⟨e, ht, hr⟩ | ⟨e, ht⟩ | ⟨cid2, ht⟩ | ht <;> rw [ht2] at ht
                · cases ht
                · injection ht with hpc
                  injection hpc with h1 hrr
                all_goals cases ht
              subst hr3
              unfold RejP
              dsimp only
              exact Or.inr (Or.inr (Or.inr (getk_setk_self ht2)))
            · unfold RejP at hp ⊢
              dsimp only
              rw [getk_setk_ne (fun h => hne h.symm)]
              exact hp
      all_goals simp at hstep
  | safeguardCloseDone tid2 =>
    simp only [step] at hstep
    rcases ht2 : getk tid2 c.tasks with _ | pc <;> rw [ht2] at hstep
    · simp at hstep
    · cases pc <;> dsimp only at hstep
      case safeguardClose cid r3 =>
        split_ifs at hstep
        rw [Option.some_inj] at hstep
        subst hstep
        by_cases hne : tid2 = tid
        · subst hne
          have hr3 : r3 = r := by
            rcases hp with ⟨e, ht, hr⟩ | ⟨e, ht⟩ | ⟨cid2, ht⟩ | ht <;> rw [ht2] at ht
            · cases ht
            · cases ht
            · injection ht with hpc
              injection hpc with h1 hrr
            · cases ht
          subst hr3
          unfold RejP
          dsimp only
          exact Or.inr (Or.inr (Or.inr (getk_setk_self ht2)))
        · unfold RejP at hp ⊢
          dsimp only
          rw [getk_setk_ne (fun h => hne h.symm)]
          exact hp
      all_goals simp at hstep
  | handleClose hid r2 =>
    simp only [step] at hstep
    rcases hh : getk hid c.handles with _ | h <;> rw [hh] at hstep
    · simp at hstep
    · dsimp only at hstep
      by_cases hcl : h.closed
      · rw [if_pos hcl] at hstep
        rw [Option.some_inj] at hstep
        subst hstep
        exact hp
      · rw [if_neg hcl] at hstep
        by_cases h0 : c.count - 1 = 0 <;> [rw [if_pos h0] at hstep; rw [if_neg h0] at hstep]
        · unfold invokeClose at hstep
          dsimp only at hstep
          rw [Option.some_inj] at hstep
          subst hstep
          exact hp
        · rw [Option.some_inj] at hstep
          subst hstep
          exact hp
  | handleCloseDone ctid =>
    simp only [step] at hstep
    rcases hct : getk ctid c.ctasks with _ | ct <;> rw [hct] at hstep
    · simp at hstep
    · rcases ct with ⟨hid, pc⟩
      cases pc <;> dsimp only at hstep
      case waitClose cid =>
        rcases hraw : getk cid c.closeRawRes with _ | out <;> rw [hraw] at hstep
        · simp at hstep
        · dsimp only at hstep
          rw [Option.some_inj] at hstep
          subst hstep
          exact hp
      all_goals simp at hstep
  | closeRawSettle cid out =>
    simp only [step] at hstep
    split_ifs at hstep
    rw [Option.some_inj] at hstep
    subst hstep
    exact hp
  | closeFinalSettle cid =>
    simp only [step] at hstep
    rcases hcs : c.closeSlot with _ | ⟨cid2, ab⟩ <;> rw [hcs] at hstep
    · simp at hstep
    · dsimp only at hstep
      split_ifs at hstep with hg hab <;> rw [Option.some_inj] at hstep <;> subst hstep <;> exact hp

/-- `RejP` holds along any execution once established. -/
theorem rejp_steps {tr : List Label} :
    ∀ {c c' : Config} {tid : Nat} {r : JSVal},
      Inv c → steps c tr = some c' → RejP tid r c → RejP tid r c' := by
  induction tr with
  | nil =>
    intro c c' tid r _ hrun hp
    simp only [steps, Option.some_inj] at hrun
    subst hrun
    exact hp
  | cons l tr ih =>
    intro c c' tid r hInv hrun hp
    simp only [steps] at hrun
    rcases hs : step c l with _ | c1 <;> rw [hs] at hrun
    · simp at hrun
    · exact ih (inv_step hInv hs) hrun (rejp_step hInv hs hp)

/-- Where invocations of the underlying `close` operation come from: a step
either leaves the invocation log unchanged, or appends exactly one invocation
for episode `e`, and then the step is a first `handle.close()` call that found
the counter at `1` (decrementing it to `0`), or the safeguard of a failed
last-reference wait closing episode `e`'s late value. -/
theorem closeLog_step {c c' : Config} {l : Label} (hstep : step c l = some c') :
    c'.closeLog = c.closeLog ∨
    ∃ e, c'.closeLog = c.closeLog ++ [e] ∧
      ((∃ hid r h, l = .handleClose hid r ∧ getk hid c.handles = some h ∧
          h.closed = false ∧ h.episode = e ∧ c.count = 1) ∨
       (∃ tid r2, l = .safeguardRun tid ∧
          getk tid c.tasks = some (.safeguardOpen e r2))) := by
  cases l with
  | openCall ab =>
    cases ab with
    | some r =>
      simp only [step] at hstep
      rw [Option.some_inj] at hstep
      subst hstep
      exact Or.inl rfl
    | none =>
      simp only [step] at hstep
      rcases hcs : c.closeSlot with _ | ⟨cid, ab2⟩ <;> rw [hcs] at hstep <;> dsimp only at hstep
      · unfold ensureOpen at hstep
        dsimp only at hstep
        rcases hsl : c.openSlot with _ | e2 <;> rw [hsl] at hstep <;> dsimp only at hstep <;>
          rw [Option.some_inj] at hstep <;> subst hstep <;> exact Or.inl rfl
      · rw [Option.some_inj] at hstep
        subst hstep
        exact Or.inl rfl
  | openCancelWaitClose tid r =>
    simp only [step] at hstep
    rcases ht : getk tid c.tasks with _ | pc <;> rw [ht] at hstep
    · simp at hstep
    · cases pc <;> dsimp only at hstep
      case waitClose cid =>
        rw [Option.some_inj] at hstep
        subst hstep
        exact Or.inl rfl
      all_goals simp at hstep
  | openResumeAfterClose tid =>
    simp only [step] at hstep
    rcases ht : getk tid c.tasks with _ | pc <;> rw [ht] at hstep
    · simp at hstep
    · cases pc <;> dsimp only at hstep
      case waitClose cid =>
        split_ifs at hstep with hin
        unfold ensureOpen at hstep
        dsimp only at hstep
        rcases hsl : c.openSlot with _ | e2 <;> rw [hsl] at hstep <;> dsimp only at hstep <;>
          rw [Option.some_inj] at hstep <;> subst hstep <;> exact Or.inl rfl
      all_goals simp at hstep
  | openerFulfill e v =>
    simp only [step] at hstep
    split_ifs at hstep with hg
    rcases hctrl : c.openCtrl with _ | p <;> rw [hctrl] at hstep <;> dsimp only at hstep
    · rw [Option.some_inj] at hstep
      subst hstep
      exact Or.inl rfl
    · rcases p with ⟨e3, b3⟩
      dsimp only at hstep
      by_cases he : e3 = e <;> [rw [if_pos he] at hstep; rw [if_neg he] at hstep] <;>
        rw [Option.some_inj] at hstep <;> subst hstep <;> exact Or.inl rfl
  | openerReject e r =>
    simp only [step] at hstep
    split_ifs at hstep with hg
    rcases hctrl : c.openCtrl with _ | p <;> rw [hctrl] at hstep <;> dsimp only at hstep
    · rw [Option.some_inj] at hstep
      subst hstep
      exact Or.inl rfl
    · rcases p with ⟨e3, b3⟩
      dsimp only at hstep
      by_cases he : e3 = e <;> [rw [if_pos he] at hstep; rw [if_neg he] at hstep] <;>
        rw [Option.some_inj] at hstep <;> subst hstep <;> exact Or.inl rfl
  | openSuccess tid =>
    simp only [step] at hstep
    rcases ht : getk tid c.tasks with _ | pc <;> rw [ht] at hstep
    · simp at hstep
    · cases pc <;> dsimp only at hstep
      case waitOpen e =>
        rcases hres : getk e c.openRes with _ | res <;> rw [hres] at hstep
        · simp at hstep
        · cases res <;> dsimp only at hstep
          case ok v2 =>
            rw [Option.some_inj] at hstep
            subst hstep
            exact Or.inl rfl
          case err r => simp at hstep
      all_goals simp at hstep
  | openFail tid =>
    simp only [step] at hstep
    rcases ht : getk tid c.tasks with _ | pc <;> rw [ht] at hstep
    · simp at hstep
    · cases pc <;> dsimp only at hstep
      case waitOpen e =>
        rcases hres : getk e c.openRes with _ | res <;> rw [hres] at hstep
        · simp at hstep
        · cases res <;> dsimp only at hstep
          case ok v => simp at hstep
          case err r =>
            rw [Option.some_inj] at hstep
            subst hstep
            exact Or.inl (failTask_shape c tid r).2.2.1
      all_goals simp at hstep
  | openCancel tid r =>
    simp only [step] at hstep
    rcases ht : getk tid c.tasks with _ | pc <;> rw [ht] at hstep
    · simp at hstep
    · cases pc <;> dsimp only at hstep
      case waitOpen e =>
        split_ifs at hstep
        rw [Option.some_inj] at hstep
        subst hstep
        exact Or.inl (failTask_shape c tid r).2.2.1
      all_goals simp at hstep
  | safeguardRun tid =>
    simp only [step] at hstep
    rcases ht : getk tid c.tasks with _ | pc <;> rw [ht] at hstep
    · simp at hstep
    · cases pc <;> dsimp only at hstep
      case safeguardOpen e r =>
        rcases hres : getk e c.openRes with _ | res <;> rw [hres] at hstep
        · simp at hstep
        · cases res <;> dsimp only at hstep
          case ok v =>
            unfold invokeClose at hstep
            dsimp only at hstep
            rw [Option.some_inj] at hstep
            subst hstep
            exact Or.inr ⟨e, rfl, Or.inr ⟨tid, r, rfl, ht⟩⟩
          case err r2 =>
            rw [Option.some_inj] at hstep
            subst hstep
            exact Or.inl rfl
      all_goals simp at hstep
  | safeguardCloseDone tid =>
    simp only [step] at hstep
    rcases ht : getk tid c.tasks with _ | pc <;> rw [ht] at hstep
    · simp at hstep
    · cases pc <;> dsimp only at hstep
      case safeguardClose cid r =>
        split_ifs at hstep
        rw [Option.some_inj] at hstep
        subst hstep
        exact Or.inl rfl
      all_goals simp at hstep
  | handleClose hid r =>
    simp only [step] at hstep
    rcases hh : getk hid c.handles with _ | h <;> rw [hh] at hstep
    · simp at hstep
    · dsimp only at hstep
      by_cases hcl : h.closed
      · rw [if_pos hcl] at hstep
        rw [Option.some_inj] at hstep
        subst hstep
        exact Or.inl rfl
      · rw [if_neg hcl] at hstep
        by_cases h0 : c.count - 1 = 0 <;> [rw [if_pos h0] at hstep; rw [if_neg h0] at hstep]
        · unfold invokeClose at hstep
          dsimp only at hstep
          rw [Option.some_inj] at hstep
          subst hstep
          refine Or.inr ⟨h.episode, rfl, Or.inl ⟨hid, r, h, rfl, hh, ?_, rfl, by omega⟩⟩
          exact Bool.eq_false_iff.mpr hcl
        · rw [Option.some_inj] at hstep
          subst hstep
          exact Or.inl rfl
  | handleCloseDone ctid =>
    simp only [step] at hstep
    rcases hct : getk ctid c.ctasks with _ | ct <;> rw [hct] at hstep
    · simp at hstep
    · rcases ct with ⟨hid, pc⟩
      cases pc <;> dsimp only at hstep
      case waitClose cid =>
        rcases hraw : getk cid c.closeRawRes with _ | out <;> rw [hraw] at hstep
        · simp at hstep
        · dsimp only at hstep
          rw [Option.some_inj] at hstep
          subst hstep
          exact Or.inl rfl
      all_goals simp at hstep
  | closeRawSettle cid out =>
    simp only [step] at hstep
    split_ifs at hstep
    rw [Option.some_inj] at hstep
    subst hstep
    exact Or.inl rfl
  | closeFinalSettle cid =>
    simp only [step] at hstep
    rcases hcs : c.closeSlot with _ | ⟨cid2, ab⟩ <;> rw [hcs] at hstep
    · simp at hstep
    · dsimp only at hstep
      split_ifs at hstep with hg hab <;> rw [Option.some_inj] at hstep <;> subst hstep <;>
        exact Or.inl rfl

/-! Claim theorems. -/

/-- C8: within one invocation of the underlying close operation, the first
`acquireHook()` call returns a hook (carrying the close controller's signal),
and any second call fails synchronously with the ReentrancyViolation
`Error('Close hook locked.')`. -/
theorem c8_hook_reentrancy (ab : Bool) :
    acquireCloseHook ab none = .acquired ⟨ab⟩ (some ()) ∧
    acquireCloseHook ab (some ()) = .threw (.errObj "Close hook locked.") :=
  ⟨rfl, rfl⟩

/-- C9: the rejection handler on an acquired hook's promise reports the error
to the side channel exactly when it is not the expected cancellation (the
close token's abort reason while the token is aborted), in which case it is
silently absorbed; the handler itself always returns normally, so nothing on
this path is ever thrown to a caller. -/
theorem c9_hook_rejection_reporting (ab : Bool) (reason err : JSVal) :
    hookCatch ab reason err =
      (if ab = true ∧ err = reason then none else some err, .ok) := by
  unfold hookCatch
  cases ab <;> by_cases h : err = reason <;> simp [h]

/-- C10: an `open()` call that rejects before incrementing the counter —
its signal already aborted at entry (line 136), or its signal aborted while
waiting out an in-flight close (line 141) — rejects with the abort reason and
leaves the instance state untouched: the counter is not incremented, no open
is started, and the slots, handles and close log are unchanged. -/
theorem c10_pre_increment_rejection :
    (∀ (c c' : Config) (r : JSVal), step c (.openCall (some r)) = some c' →
      c'.count = c.count ∧ c'.openSlot = c.openSlot ∧ c'.openCtrl = c.openCtrl ∧
      c'.openerRuns = c.openerRuns ∧ c'.nextEp = c.nextEp ∧
      c'.closeSlot = c.closeSlot ∧ c'.handles = c.handles ∧
      c'.closeLog = c.closeLog ∧
      getk c.nextTid c'.tasks = some (.done (.err r))) ∧
    (∀ (c c' : Config) (tid cid : Nat) (r : JSVal),
      getk tid c.tasks = some (.waitClose cid) →
      step c (.openCancelWaitClose tid r) = some c' →
      c'.count = c.count ∧ c'.openSlot = c.openSlot ∧ c'.openCtrl = c.openCtrl ∧
      c'.openerRuns = c.openerRuns ∧ c'.nextEp = c.nextEp ∧
      c'.closeSlot = c.closeSlot ∧ c'.handles = c.handles ∧
      c'.closeLog = c.closeLog ∧
      getk tid c'.tasks = some (.done (.err r))) := by
  constructor
  · intro c c' r hstep
    simp only [step] at hstep
    rw [Option.some_inj] at hstep
    subst hstep
    refine ⟨rfl, rfl, rfl, rfl, rfl, rfl, rfl, rfl, ?_⟩
    rw [getk_cons, if_pos rfl]
  · intro c c' tid cid r ht hstep
    simp only [step] at hstep
    rw [ht] at hstep
    dsimp only at hstep
    rw [Option.some_inj] at hstep
    subst hstep
    exact ⟨rfl, rfl, rfl, rfl, rfl, rfl, rfl, rfl, getk_setk_self ht⟩

/-- Witness for C10: on a fresh instance an entry-aborted call (reason `4`)
changes nothing; and in the supersession scenario, the waiting caller's
cancellation (reason `8`) changes nothing. -/
def cCd5 : Config := (steps init
  [.openCall none, .openerFulfill 0 5, .openSuccess 0,
   .handleClose 0 (.num 9), .openCall none]).getD init

theorem c10_pre_increment_rejection_witness :
    (cEntryAborted.count = init.count ∧ cEntryAborted.openSlot = init.openSlot ∧
      cEntryAborted.openCtrl = init.openCtrl ∧ cEntryAborted.openerRuns = init.openerRuns ∧
      cEntryAborted.nextEp = init.nextEp ∧ cEntryAborted.closeSlot = init.closeSlot ∧
      cEntryAborted.handles = init.handles ∧ cEntryAborted.closeLog = init.closeLog ∧
      getk init.nextTid cEntryAborted.tasks = some (.done (.err (.num 4)))) ∧
    (cCancelDuringClose.count = cCd5.count ∧
      cCancelDuringClose.openSlot = cCd5.openSlot ∧
      cCancelDuringClose.openCtrl = cCd5.openCtrl ∧
      cCancelDuringClose.openerRuns = cCd5.openerRuns ∧
      cCancelDuringClose.nextEp = cCd5.nextEp ∧
      cCancelDuringClose.closeSlot = cCd5.closeSlot ∧
      cCancelDuringClose.handles = cCd5.handles ∧
      cCancelDuringClose.closeLog = cCd5.closeLog ∧
      getk 1 cCancelDuringClose.tasks = some (.done (.err (.num 8)))) :=
  ⟨c10_pre_increment_rejection.1 init cEntryAborted (.num 4) rfl,
   c10_pre_increment_rejection.2 cCd5 cCancelDuringClose 1 0 (.num 8) rfl rfl⟩

/-- C5: a handle's `close()` is idempotent — once the handle is marked
closed, a further call fails synchronously with `Error('Already closed.')`
and changes nothing (in particular it does not decrement the counter and does
not invoke the underlying close); only the first call flips the flag and
decrements the counter. -/
theorem c5_handle_close_idempotent (c c' : Config) (hid : Nat) (r : JSVal)
    (h : HandleSt) (hh : getk hid c.handles = some h)
    (hstep : step c (.handleClose hid r) = some c') :
    (h.closed = true →
      getk c.nextCtid c'.ctasks =
        some ⟨hid, .done (.err (.errObj "Already closed."))⟩ ∧
      c'.count = c.count ∧ c'.handles = c.handles ∧ c'.closeLog = c.closeLog ∧
      c'.openSlot = c.openSlot ∧ c'.closeSlot = c.closeSlot) ∧
    (h.closed = false →
      getk hid c'.handles = some { h with closed := true } ∧
      c'.count = c.count - 1) := by
  simp only [step] at hstep
  rw [hh] at hstep
  dsimp only at hstep
  by_cases hcl : h.closed
  · rw [if_pos hcl] at hstep
    rw [Option.some_inj] at hstep
    subst hstep
    constructor
    · intro _
      refine ⟨?_, rfl, rfl, rfl, rfl, rfl⟩
      rw [getk_cons, if_pos rfl]
    · intro hfalse
      rw [hfalse] at hcl
      cases hcl
  · rw [if_neg hcl] at hstep
    constructor
    · intro htrue
      rw [htrue] at hcl
      exact absurd rfl hcl
    · intro _
      by_cases h0 : c.count - 1 = 0 <;> [rw [if_pos h0] at hstep; rw [if_neg h0] at hstep]
      · unfold invokeClose at hstep
        dsimp only at hstep
        rw [Option.some_inj] at hstep
        subst hstep
        exact ⟨getk_setk_self hh, rfl⟩
      · rw [Option.some_inj] at hstep
        subst hstep
        exact ⟨getk_setk_self hh, rfl⟩

/-- Witness for C5: in the double-close scenario, the first `close()` flips
the flag and decrements; the second fails with `Already closed.` and leaves
the counter, handles and close log unchanged. -/
def cD3 : Config := (steps init
  [.openCall none, .openerFulfill 0 5, .openSuccess 0]).getD init

def cD4 : Config := (step cD3 (.handleClose 0 (.num 9))).getD init

def cD5 : Config := (step cD4 (.handleClose 0 (.num 9))).getD init

theorem c5_handle_close_idempotent_witness :
    (getk 0 cD4.handles = some { episode := 0, value := 5, closed := true } ∧
      cD4.count = cD3.count - 1) ∧
    (getk cD4.nextCtid cD5.ctasks =
        some ⟨0, .done (.err (.errObj "Already closed."))⟩ ∧
      cD5.count = cD4.count ∧ cD5.handles = cD4.handles ∧
      cD5.closeLog = cD4.closeLog ∧ cD5.openSlot = cD4.openSlot ∧
      cD5.closeSlot = cD4.closeSlot) :=
  ⟨(c5_handle_close_idempotent cD3 cD4 0 (.num 9) ⟨0, 5, false⟩ rfl rfl).2 rfl,
   (c5_handle_close_idempotent cD4 cD5 0 (.num 9) ⟨0, 5, true⟩ rfl rfl).1 rfl⟩

/-- C1: single-flight open.  In every reachable configuration the opener has
run exactly once per episode; while an episode is cached and its promise has
not settled, a further `open()` call does not run the opener again but joins
the cached episode; and any two handles of the same episode carry the same
shared value. -/
theorem c1_single_flight (tr : List Label) (c : Config)
    (hrun : steps init tr = some c) :
    c.openerRuns = c.nextEp ∧
    (∀ (e : Nat) (c' : Config), c.closeSlot = none → c.openSlot = some e →
      getk e c.openRes = none → step c (.openCall none) = some c' →
      c'.openerRuns = c.openerRuns ∧
      getk c.nextTid c'.tasks = some (.waitOpen e)) ∧
    (∀ (k1 k2 : Nat) (a1 a2 : HandleSt), (k1, a1) ∈ c.handles →
      (k2, a2) ∈ c.handles → a1.episode = a2.episode → a1.value = a2.value) := by
  obtain ⟨h1, h2, h3, h4, h5⟩ := inv_reach hrun
  refine ⟨h1, ?_, ?_⟩
  · intro e c' hcs hsl _ hstep
    simp only [step] at hstep
    rw [hcs] at hstep
    dsimp only at hstep
    unfold ensureOpen at hstep
    dsimp only at hstep
    rw [hsl] at hstep
    dsimp only at hstep
    rw [Option.some_inj] at hstep
    subst hstep
    exact ⟨rfl, by rw [getk_cons, if_pos rfl]⟩
  · intro k1 k2 a1 a2 hm1 hm2 hep
    have e1 := h3 (k1, a1) hm1
    have e2 := h3 (k2, a2) hm2
    dsimp only at e1 e2
    rw [hep] at e1
    rw [e1] at e2
    injection e2 with hx
    injection hx

/-- Witness for C1: after one `open()` on a fresh instance the opener has run
once; a second concurrent `open()` joins episode `0` without running the
opener again; and in the two-caller scenario both issued handles carry the
shared value `5`. -/
def cOne : Config := (steps init [Label.openCall none]).getD init

def cTwo : Config := (step cOne (.openCall none)).getD init

theorem c1_single_flight_witness :
    cOne.openerRuns = cOne.nextEp ∧
    (cTwo.openerRuns = cOne.openerRuns ∧
      getk cOne.nextTid cTwo.tasks = some (.waitOpen 0)) ∧
    HandleSt.value ⟨0, 5, true⟩ = HandleSt.value ⟨0, 5, true⟩ :=
  ⟨(c1_single_flight [Label.openCall none] cOne rfl).1,
   (c1_single_flight [Label.openCall none] cOne rfl).2.1 0 cTwo rfl rfl rfl rfl,
   (c1_single_flight trShare cShare rfl).2.2 0 1 ⟨0, 5, true⟩ ⟨0, 5, true⟩
     (by decide) (by decide) rfl⟩

/-- C3 fails as stated: in the `trFailClose` run the single issued handle's
`close()` was called but rejected (the underlying close operation failed), so
the handle was never successfully closed, yet the counter is `0`, not `1`:
the counter counts close-initiated handles, not successfully closed ones. -/
def successfullyClosed (c : Config) (hid : Nat) : Bool :=
  c.ctasks.any (fun kv => decide (kv.2.hid = hid ∧ kv.2.pc = CTaskPc.done .ok))

def issuedNotSuccessfullyClosed (c : Config) : Nat :=
  (c.handles.filter (fun kv => !(successfullyClosed c kv.1))).length

theorem c3_counter_invariant_counterexample :
    steps init trFailClose = some cFailClose ∧
    inflight cFailClose = 0 ∧
    cFailClose.count = 0 ∧
    issuedNotSuccessfullyClosed cFailClose = 1 ∧
    cFailClose.count ≠ (issuedNotSuccessfullyClosed cFailClose : Int) := by
  refine ⟨rfl, rfl, rfl, rfl, ?_⟩
  decide

/-- C3 amended: in every reachable configuration the counter is
non-negative and equals the number of `open()` calls past their increment and
still waiting, plus the number of issued handles whose `close()` has not yet
been initiated; in particular, whenever no `open()` call is in flight the
counter equals the number of issued, not-yet-close-initiated handles. -/
theorem c3_counter_invariant (tr : List Label) (c : Config)
    (hrun : steps init tr = some c) :
    0 ≤ c.count ∧
    c.count = (inflight c : Int) + (liveHandles c : Int) ∧
    (inflight c = 0 → c.count = (liveHandles c : Int)) := by
  obtain ⟨h1, h2, h3, h4, h5⟩ := inv_reach hrun
  refine ⟨by omega, h2, ?_⟩
  intro h0
  rw [h0] at h2
  simpa using h2

/-- Witness for C3 amended, at the quiescent end of the sharing scenario. -/
theorem c3_counter_invariant_witness :
    0 ≤ cShare.count ∧
    cShare.count = (inflight cShare : Int) + (liveHandles cShare : Int) ∧
    (inflight cShare = 0 → cShare.count = (liveHandles cShare : Int)) :=
  c3_counter_invariant trShare cShare rfl

/-- C2 fails as stated: in the supersession run a single episode (`nextEp =
1`) has its underlying close operation invoked twice — once for the first
0-transition (aborted by the superseding `open()`, which then reuses the
retained episode) and once for the second 0-transition. -/
theorem c2_at_most_once_close_counterexample :
    steps init trSupersede = some cSupersede ∧
    cSupersede.nextEp = 1 ∧
    cSupersede.closeLog = [0, 0] :=
  ⟨rfl, rfl, rfl⟩

/-- C2 amended: every invocation of the underlying close operation happens on
a 0-transition of the counter — either a first `handle.close()` call that
finds the counter at `1`, or the safeguard of a failed last-reference wait —
and a first `handle.close()` that finds the counter above `1` never invokes
the underlying close.  (Per 0-transition, not per episode: a superseded close
leaves the episode cached, so one episode may see several 0-transitions.) -/
theorem c2_close_on_zero_transition (c c' : Config) (l : Label)
    (hstep : step c l = some c') :
    (c'.closeLog = c.closeLog ∨
      ∃ e, c'.closeLog = c.closeLog ++ [e] ∧
        ((∃ hid r h, l = .handleClose hid r ∧ getk hid c.handles = some h ∧
            h.closed = false ∧ h.episode = e ∧ c.count = 1) ∨
         (∃ tid r2, l = .safeguardRun tid ∧
            getk tid c.tasks = some (.safeguardOpen e r2)))) ∧
    (∀ (hid : Nat) (r : JSVal) (h : HandleSt), l = .handleClose hid r →
      getk hid c.handles = some h → h.closed = false → c.count ≠ 1 →
      c'.closeLog = c.closeLog) := by
  refine ⟨closeLog_step hstep, ?_⟩
  intro hid r h hl hh hcl hcnt
  subst hl
  rcases closeLog_step hstep with hsame | ⟨e, happ, hj | hj⟩
  · exact hsame
  · obtain ⟨hid2, r2, h2, heql, _, _, _, hcount⟩ := hj
    exact absurd hcount hcnt
  · obtain ⟨tid, r2, heql, _⟩ := hj
    cases heql

/-- Witness for C2 amended, in the sharing scenario: closing the second-last
handle (counter `2`) does not invoke the underlying close; closing the last
one (counter `1`) extends the invocation log. -/
def cSh5 : Config := (steps init
  [.openCall none, .openCall none, .openerFulfill 0 5,
   .openSuccess 0, .openSuccess 1]).getD init

def cSh6 : Config := (step cSh5 (.handleClose 0 (.num 9))).getD init

def cSh7 : Config := (step cSh6 (.handleClose 1 (.num 9))).getD init

theorem c2_close_on_zero_transition_witness :
    (cSh7.closeLog = cSh6.closeLog ∨
      ∃ e, cSh7.closeLog = cSh6.closeLog ++ [e] ∧
        ((∃ hid r h, Label.handleClose 1 (JSVal.num 9) = .handleClose hid r ∧
            getk hid cSh6.handles = some h ∧ h.closed = false ∧ h.episode = e ∧
            cSh6.count = 1) ∨
         (∃ tid r2, Label.handleClose 1 (JSVal.num 9) = .safeguardRun tid ∧
            getk tid cSh6.tasks = some (.safeguardOpen e r2)))) ∧
    cSh6.closeLog = cSh5.closeLog :=
  ⟨(c2_close_on_zero_transition cSh6 cSh7 (.handleClose 1 (.num 9)) rfl).1,
   (c2_close_on_zero_transition cSh5 cSh6 (.handleClose 0 (.num 9)) rfl).2
     0 (.num 9) ⟨0, 5, false⟩ rfl rfl rfl (by decide)⟩

/-- C4 fails as stated: in the supersession run the second `open()` (task
`1`) waits out the aborted close and then returns handle `1` carrying episode
`0`'s cached value `5`; the opener ran only once, so the resource was not
freshly opened. -/
theorem c4_supersession_counterexample :
    steps init trSupersede = some cSupersede ∧
    cSupersede.openerRuns = 1 ∧
    getk 1 cSupersede.tasks = some (.done (.ok 1)) ∧
    getk 1 cSupersede.handles = some ⟨0, 5, true⟩ ∧
    getk 0 cSupersede.handles = some ⟨0, 5, true⟩ :=
  ⟨rfl, rfl, rfl, rfl, rfl⟩

/-- C4 amended: an `open()` arriving while a close is in flight aborts that
close's token and suspends without touching the counter or running the
opener; it can resume only after the close's field promise fully settled; an
aborted close's settlement retains `#openPromise`; and the resuming `open()`
joins the retained episode — it returns the previous episode's cached value
without a fresh invocation of the opener. -/
theorem c4_supersession :
    (∀ (c c' : Config) (cid : Nat) (ab : Bool), c.closeSlot = some (cid, ab) →
      step c (.openCall none) = some c' →
      c'.closeSlot = some (cid, true) ∧
      getk c.nextTid c'.tasks = some (.waitClose cid) ∧
      c'.count = c.count ∧ c'.openerRuns = c.openerRuns) ∧
    (∀ (c c' : Config) (tid : Nat), step c (.openResumeAfterClose tid) = some c' →
      ∃ cid, getk tid c.tasks = some (.waitClose cid) ∧ cid ∈ c.closeFinalDone) ∧
    (∀ (c c' : Config) (cid : Nat), c.closeSlot = some (cid, true) →
      step c (.closeFinalSettle cid) = some c' → c'.openSlot = c.openSlot) ∧
    (∀ (c c' : Config) (tid e : Nat), c.openSlot = some e →
      step c (.openResumeAfterClose tid) = some c' →
      c'.openerRuns = c.openerRuns ∧ getk tid c'.tasks = some (.waitOpen e)) := by
  refine ⟨?_, ?_, ?_, ?_⟩
  · intro c c' cid ab hcs hstep
    simp only [step] at hstep
    rw [hcs] at hstep
    dsimp only at hstep
    rw [Option.some_inj] at hstep
    subst hstep
    exact ⟨rfl, by rw [getk_cons, if_pos rfl], rfl, rfl⟩
  · intro c c' tid hstep
    simp only [step] at hstep
    rcases ht : getk tid c.tasks with _ | pc <;> rw [ht] at hstep
    · simp at hstep
    · cases pc <;> dsimp only at hstep
      case waitClose cid =>
        split_ifs at hstep with hin
        exact ⟨cid, rfl, hin⟩
      all_goals simp at hstep
  · intro c c' cid hcs hstep
    simp only [step] at hstep
    rw [hcs] at hstep
    dsimp only at hstep
    split_ifs at hstep with hg htr
    · rw [Option.some_inj] at hstep
      subst hstep
      rfl
    · exact absurd rfl htr
  · intro c c' tid e hsl hstep
    simp only [step] at hstep
    rcases ht : getk tid c.tasks with _ | pc <;> rw [ht] at hstep
    · simp at hstep
    · cases pc <;> dsimp only at hstep
      case waitClose cid =>
        split_ifs at hstep with hin
        unfold ensureOpen at hstep
        dsimp only at hstep
        rw [hsl] at hstep
        dsimp only at hstep
        rw [Option.some_inj] at hstep
        subst hstep
        exact ⟨rfl, getk_setk_self ht⟩
      all_goals simp at hstep

/-- Witness for C4 amended, along the supersession run. -/
def cSup4 : Config := (steps init
  [.openCall none, .openerFulfill 0 5, .openSuccess 0,
   .handleClose 0 (.num 9)]).getD init

def cSup5 : Config := (step cSup4 (.openCall none)).getD init

def cSup6 : Config := (step cSup5 (.closeRawSettle 0 .ok)).getD init

def cSup7 : Config := (step cSup6 (.closeFinalSettle 0)).getD init

def cSup8 : Config := (step cSup7 (.openResumeAfterClose 1)).getD init

theorem c4_supersession_witness :
    (cSup5.closeSlot = some (0, true) ∧
      getk cSup4.nextTid cSup5.tasks = some (.waitClose 0) ∧
      cSup5.count = cSup4.count ∧ cSup5.openerRuns = cSup4.openerRuns) ∧
    (∃ cid, getk 1 cSup7.tasks = some (.waitClose cid) ∧
      cid ∈ cSup7.closeFinalDone) ∧
    (cSup7.openSlot = cSup6.openSlot) ∧
    (cSup8.openerRuns = cSup7.openerRuns ∧
      getk 1 cSup8.tasks = some (.waitOpen 0)) :=
  ⟨c4_supersession.1 cSup4 cSup5 0 false rfl rfl,
   c4_supersession.2.1 cSup7 cSup8 1 rfl,
   c4_supersession.2.2.1 cSup6 cSup7 0 rfl rfl,
   c4_supersession.2.2.2 cSup7 cSup8 1 0 rfl rfl⟩

/-- C6 fails as stated in its reporting clause: in the safeguard run the
safeguard's close rejects with reason `3`; the caller still gets the original
cancellation reason `7`, and — the close implementation having taken no hook —
the rejection is silently discarded (`closePromise.catch((): void => {})`,
line 115), not reported. -/
theorem c6_last_reference_failure_counterexample :
    steps init trSafeguard = some cSafeguard ∧
    getk 0 cSafeguard.tasks = some (.done (.err (.num 7))) ∧
    getk 0 cSafeguard.closeRawRes = some (.err (.num 3)) ∧
    noHookAbsorb (.err (.num 3)) = (none, .ok) :=
  ⟨rfl, rfl, rfl, rfl⟩

/-- C6 amended: when a caller's wait on the shared open is cancelled or
fails, its counter contribution is decremented; if it was the last reference,
the shared open's token is aborted and the call suspends at the safeguard on
the cached episode; if the aborted open later still produces a value, that
value's close operation is invoked immediately; errors of this safeguard are
not re-raised — the call always settles with its original failure or
cancellation reason (a hook-path rejection is reported, a rejection of the
close call's own promise is silently discarded). -/
theorem c6_last_reference_failure :
    (∀ (c c' : Config) (tid e : Nat) (r : JSVal),
      getk tid c.tasks = some (.waitOpen e) → getk e c.openRes = none →
      step c (.openCancel tid r) = some c' →
      c'.count = c.count - 1 ∧
      (c.count = 1 →
        c'.openCtrl = c.openCtrl.map (fun (p : Nat × Bool) => (p.1, true)) ∧
        ∀ e2, c.openSlot = some e2 →
          getk tid c'.tasks = some (.safeguardOpen e2 r))) ∧
    (∀ (c c' : Config) (tid e : Nat) (r : JSVal),
      getk tid c.tasks = some (.waitOpen e) →
      getk e c.openRes = some (.err r) →
      step c (.openFail tid) = some c' → c'.count = c.count - 1) ∧
    (∀ (c c' : Config) (tid e : Nat) (r : JSVal) (v : Nat),
      getk tid c.tasks = some (.safeguardOpen e r) →
      getk e c.openRes = some (.ok v) → step c (.safeguardRun tid) = some c' →
      c'.closeLog = c.closeLog ++ [e]) ∧
    (∀ (tr tr2 : List Label) (c c' : Config) (tid e : Nat) (r : JSVal)
      (out : ODone),
      steps init tr = some c → steps c tr2 = some c' →
      getk tid c.tasks = some (.safeguardOpen e r) →
      getk tid c'.tasks = some (.done out) → out = .err r) := by
  refine ⟨?_, ?_, ?_, ?_⟩
  · intro c c' tid e r ht hres hstep
    simp only [step] at hstep
    rw [ht] at hstep
    dsimp only at hstep
    rw [if_pos hres] at hstep
    rw [Option.some_inj] at hstep
    subst hstep
    refine ⟨(failTask_shape c tid r).2.2.2, ?_⟩
    intro h1
    have h0 : c.count - 1 = 0 := by omega
    unfold failTask
    dsimp only
    rw [if_pos h0]
    rcases hsl2 : c.openSlot with _ | e2 <;> dsimp only
    · refine ⟨rfl, ?_⟩
      intro e3 hctr
      cases hctr
    · refine ⟨rfl, ?_⟩
      intro e3 hctr
      injection hctr with he3
      subst he3
      exact getk_setk_self ht
  · intro c c' tid e r ht hres hstep
    simp only [step] at hstep
    rw [ht] at hstep
    dsimp only at hstep
    rw [hres] at hstep
    dsimp only at hstep
    rw [Option.some_inj] at hstep
    subst hstep
    exact (failTask_shape c tid r).2.2.2
  · intro c c' tid e r v ht hres hstep
    simp only [step] at hstep
    rw [ht] at hstep
    dsimp only at hstep
    rw [hres] at hstep
    dsimp only at hstep
    unfold invokeClose at hstep
    dsimp only at hstep
    rw [Option.some_inj] at hstep
    subst hstep
    rfl
  · intro tr tr2 c c' tid e r out hr1 hr2 ht hdone
    have hp' : RejP tid r c' :=
      rejp_steps (inv_reach hr1) hr2 (Or.inr (Or.inl ⟨e, ht⟩))
    rcases hp' with ⟨e2, ht2, _⟩ | ⟨e2, ht2⟩ | ⟨cid2, ht2⟩ | ht2 <;> rw [hdone] at ht2
    · cases ht2
    · cases ht2
    · cases ht2
    · exact OTaskPc.done.inj (Option.some_inj.mp ht2)

/-- Witness for C6 amended, along the safeguard run (and the opener-rejection
run for the failure-path decrement). -/
def cSg1 : Config := (steps init [Label.openCall none]).getD init

def cSg2 : Config := (step cSg1 (.openCancel 0 (.num 7))).getD init

def cSg3 : Config := (step cSg2 (.openerFulfill 0 5)).getD init

def cSg4 : Config := (step cSg3 (.safeguardRun 0)).getD init

def cRj1 : Config := (steps init [Label.openCall none]).getD init

def cRj2 : Config := (step cRj1 (.openerReject 0 (.num 13))).getD init

def cRj3 : Config := (step cRj2 (.openFail 0)).getD init

def cRj4 : Config := (step cRj3 (.openCall none)).getD init

theorem c6_last_reference_failure_witness :
    (cSg2.count = cSg1.count - 1 ∧
      (cSg1.count = 1 →
        cSg2.openCtrl = cSg1.openCtrl.map (fun (p : Nat × Bool) => (p.1, true)) ∧
        ∀ e2, cSg1.openSlot = some e2 →
          getk 0 cSg2.tasks = some (.safeguardOpen e2 (.num 7)))) ∧
    cRj3.count = cRj2.count - 1 ∧
    cSg4.closeLog = cSg3.closeLog ++ [0] ∧
    ODone.err (.num 7) = ODone.err (.num 7) :=
  ⟨c6_last_reference_failure.1 cSg1 cSg2 0 0 (.num 7) rfl rfl rfl,
   c6_last_reference_failure.2.1 cRj2 cRj3 0 0 (.num 13) rfl rfl rfl,
   c6_last_reference_failure.2.2.1 cSg3 cSg4 0 0 (.num 7) 5 rfl rfl rfl,
   c6_last_reference_failure.2.2.2 [Label.openCall none, .openCancel 0 (.num 7)]
     [.openerFulfill 0 5, .safeguardRun 0, .closeRawSettle 0 (.err (.num 3)),
      .safeguardCloseDone 0, .closeFinalSettle 0]
     cSg2 cSafeguard 0 0 (.num 7) (.err (.num 7)) rfl rfl rfl rfl⟩

/-- C7: when the opener's promise for the cached episode rejects, the open
slot is cleared and the rejection is recorded, so every caller awaiting that
shared open settles with the opener's reason, and a subsequent `open()`
(with no close in flight) invokes the opener again — a fresh attempt. -/
theorem c7_open_failure_clears_slot :
    (∀ (tr : List Label) (c c' : Config) (e : Nat) (r : JSVal),
      steps init tr = some c → c.openSlot = some e →
      step c (.openerReject e r) = some c' →
      c'.openSlot = none ∧ getk e c'.openRes = some (.err r)) ∧
    (∀ (c c' : Config), c.closeSlot = none → c.openSlot = none →
      step c (.openCall none) = some c' →
      c'.openerRuns = c.openerRuns + 1) ∧
    (∀ (tr tr2 : List Label) (c c' : Config) (tid e : Nat) (r : JSVal)
      (out : ODone),
      steps init tr = some c → steps c tr2 = some c' →
      getk tid c.tasks = some (.waitOpen e) →
      getk e c.openRes = some (.err r) →
      getk tid c'.tasks = some (.done out) → out = .err r) := by
  refine ⟨?_, ?_, ?_⟩
  · intro tr c c' e r hrun hsl hstep
    obtain ⟨h1, h2, h3, h4, h5⟩ := inv_reach hrun
    simp only [step] at hstep
    split_ifs at hstep with hg
    obtain ⟨hlt, hnone⟩ := hg
    obtain ⟨b, hb⟩ := h4 e hsl hnone
    rw [hb] at hstep
    dsimp only at hstep
    rw [if_pos rfl] at hstep
    rw [Option.some_inj] at hstep
    subst hstep
    refine ⟨rfl, ?_⟩
    dsimp only
    rw [getk_cons, if_pos rfl]
  · intro c c' hcs hsl hstep
    simp only [step] at hstep
    rw [hcs] at hstep
    dsimp only at hstep
    unfold ensureOpen at hstep
    dsimp only at hstep
    rw [hsl] at hstep
    dsimp only at hstep
    rw [Option.some_inj] at hstep
    subst hstep
    rfl
  · intro tr tr2 c c' tid e r out hr1 hr2 ht hres hdone
    have hp' : RejP tid r c' :=
      rejp_steps (inv_reach hr1) hr2 (Or.inl ⟨e, ht, hres⟩)
    rcases hp' with ⟨e2, ht2, _⟩ | ⟨e2, ht2⟩ | ⟨cid2, ht2⟩ | ht2 <;> rw [hdone] at ht2
    · cases ht2
    · cases ht2
    · cases ht2
    · exact OTaskPc.done.inj (Option.some_inj.mp ht2)

/-- Witness for C7, along the opener-rejection run. -/
theorem c7_open_failure_clears_slot_witness :
    (cRj2.openSlot = none ∧ getk 0 cRj2.openRes = some (.err (.num 13))) ∧
    cRj4.openerRuns = cRj3.openerRuns + 1 ∧
    ODone.err (.num 13) = ODone.err (.num 13) :=
  ⟨c7_open_failure_clears_slot.1 [Label.openCall none] cRj1 cRj2 0 (.num 13)
     rfl rfl rfl,
   c7_open_failure_clears_slot.2.1 cRj3 cRj4 rfl rfl rfl,
   c7_open_failure_clears_slot.2.2 [Label.openCall none, .openerReject 0 (.num 13)]
     [.openFail 0] cRj2 cRj3 0 0 (.num 13) (.err (.num 13)) rfl rfl rfl rfl rfl⟩

end AsyncRefCount
